import Mathlib

/-!
# Physics and collision core of `platformer.js`

A shallow embedding of the rectangle, moving-rectangle, player, platform, map
and game objects of `src/platformer.js`, followed by theorems about them.

Conventions of the embedding:

* JavaScript numbers are modelled in two layers.  The first computes over exact
  rationals (`ℚ`), with the constants `0.5`, `0.95` and `12` as `1/2`, `19/20`
  and `12`; it carries the properties that do not depend on rounding.  The
  second (names ending in `64`) rounds every operation to binary64 and carries
  the properties that do.  Infinities and NaN are outside both.
* Every method that mutates `this` becomes a function returning the new
  object; a method that only reads an argument takes it as a plain value.
* The prototype chain `Rect ← MovableRect ← Player / Platform` becomes
  structure extension; an inherited method is applied to the parent part.
* The rendering and event-loop code (`Renderer`, `mainLoop`, `draw`) has no
  effect on the simulated state and is not embedded.
-/

namespace Platformer

/-! ## Keyboard state -/

/-- The entries of `KeyboardManager.keys` that `Player.handleInput` reads.  A key
that was never pressed is `undefined` in the source, which is falsy: here `false`.
The field `space` stands for the entry `keys[" "]`. -/
structure Keys where
  a : Bool
  d : Bool
  w : Bool
  s : Bool
  space : Bool
  r : Bool
deriving DecidableEq

/-- The value of `this.keys = {}`: no key is pressed. -/
def Keys.none : Keys := ⟨false, false, false, false, false, false⟩

/-! ## Rectangle -/

/-- The object built by `Rect(x, y, w, h)`. -/
structure Rect where
  x : ℚ
  y : ℚ
  w : ℚ
  h : ℚ
deriving DecidableEq

/-- `Rect.prototype.setPosition`. -/
def Rect.setPosition (self : Rect) (x y : ℚ) : Rect :=
  { self with x := x, y := y }

/-- `Rect.prototype.translate`. -/
def Rect.translate (self : Rect) (dx dy : ℚ) : Rect :=
  { self with x := self.x + dx, y := self.y + dy }

/-- `Rect.prototype.grow`. -/
def Rect.grow (self : Rect) (dw dh : ℚ) : Rect :=
  { self with w := self.w + dw, h := self.h + dh }

/-- `Rect.prototype.inflate`. -/
def Rect.inflate (self : Rect) (dw dh : ℚ) : Rect :=
  (self.translate (-dw) (-dh)).grow (2 * dw) (2 * dh)

/-- `Rect.prototype.colliding`: the negation of the four separating tests. -/
def Rect.colliding (self other : Rect) : Bool :=
  !(decide (self.x + self.w < other.x) ||
    decide (self.y + self.h < other.y) ||
    decide (self.x > other.x + other.w) ||
    decide (self.y > other.y + other.h))

/-! ## Moving rectangle -/

/-- The object built by `MovableRect(x, y, w, h, vx, vy)`. -/
structure MovableRect extends Rect where
  vx : ℚ
  vy : ℚ
  lastX : ℚ
  lastY : ℚ
deriving DecidableEq

/-- The constructor `MovableRect`: `lastX`, `lastY` start at `x`, `y`. -/
def MovableRect.new (x y w h vx vy : ℚ) : MovableRect :=
  { x := x, y := y, w := w, h := h, vx := vx, vy := vy, lastX := x, lastY := y }

/-- `Rect.prototype.setPosition` inherited by a moving rectangle. -/
def MovableRect.setPosition (self : MovableRect) (x y : ℚ) : MovableRect :=
  { self with toRect := self.toRect.setPosition x y }

/-- `Rect.prototype.translate` inherited by a moving rectangle. -/
def MovableRect.translate (self : MovableRect) (dx dy : ℚ) : MovableRect :=
  { self with toRect := self.toRect.translate dx dy }

/-- `MovableRect.prototype.setVelocity`. -/
def MovableRect.setVelocity (self : MovableRect) (vx vy : ℚ) : MovableRect :=
  { self with vx := vx, vy := vy }

/-- `MovableRect.prototype.accelerate`. -/
def MovableRect.accelerate (self : MovableRect) (dvx dvy : ℚ) : MovableRect :=
  { self with vx := self.vx + dvx, vy := self.vy + dvy }

/-- `MovableRect.prototype.saveOldPosition`. -/
def MovableRect.saveOldPosition (self : MovableRect) : MovableRect :=
  { self with lastX := self.x, lastY := self.y }

/-- `MovableRect.prototype.move`. -/
def MovableRect.move (self : MovableRect) : MovableRect :=
  let saved := self.saveOldPosition
  saved.translate saved.vx saved.vy

/-! ## Platform -/

/-- The object built by `Platform(x, y, w, h)`. -/
structure Platform extends MovableRect
deriving DecidableEq

/-- The constructor `Platform`: a moving rectangle with the default velocity `0, 0`. -/
def Platform.new (x y w h : ℚ) : Platform :=
  { toMovableRect := MovableRect.new x y w h 0 0 }

/-- `Platform.prototype.update`. -/
def Platform.update (self : Platform) : Platform :=
  { self with toMovableRect := self.toMovableRect.move }

/-! ## Map -/

/-- The object built by `Map(platforms)`. -/
structure Map where
  platforms : List Platform
deriving DecidableEq

/-- `Map.prototype.add`. -/
def Map.add (self : Map) (platform : Platform) : Map :=
  { self with platforms := self.platforms ++ [platform] }

/-- The variables live in the loop of `Map.prototype.getCollisions`: the array
`this.platforms`, the local array `collisions` and the index `i`. -/
structure Scan where
  platforms : List Platform
  collisions : List Platform
  i : Nat
deriving DecidableEq

/-- One pass through the body of the `for` loop of `getCollisions`, increment included. -/
def Map.getCollisionsStep (rect : Rect) (s : Scan) : Scan :=
  match s.platforms[s.i]? with
  | some p =>
      if p.toRect.colliding rect then
        { s with collisions := s.collisions ++ [p], i := s.i + 1 }
      else
        { s with i := s.i + 1 }
  | none => s

/-- The `for` loop of `getCollisions`, run for at most `fuel` passes: it stops
as soon as the test `i < this.platforms.length` fails. -/
def Map.getCollisionsLoop (rect : Rect) : Nat → Scan → Scan
  | 0, s => s
  | fuel + 1, s =>
      if s.i < s.platforms.length then
        Map.getCollisionsLoop rect fuel (Map.getCollisionsStep rect s)
      else
        s

/-- The loop state at the `return` of `Map.prototype.getCollisions`. -/
def Map.getCollisionsRun (self : Map) (rect : Rect) : Scan :=
  Map.getCollisionsLoop rect self.platforms.length ⟨self.platforms, [], 0⟩

/-- `Map.prototype.getCollisions`: the returned array. -/
def Map.getCollisions (self : Map) (rect : Rect) : List Platform :=
  (self.getCollisionsRun rect).collisions

/-- `Map.prototype.update`: every platform is updated in place, in order. -/
def Map.update (self : Map) : Map :=
  { self with platforms := self.platforms.map Platform.update }

/-! ## Player -/

/-- The object built by `Player(x, y)`, with the field `canJump` that the
prototype initialises to `false`. -/
structure Player extends MovableRect where
  canJump : Bool
deriving DecidableEq

/-- `Player.prototype.acceleration`. -/
def Player.acceleration : ℚ := 1 / 2

/-- `Player.prototype.frictionMultiplier`. -/
def Player.frictionMultiplier : ℚ := 19 / 20

/-- `Player.prototype.gravity`. -/
def Player.gravity : ℚ := 1 / 2

/-- `Player.prototype.jumpSpeed`. -/
def Player.jumpSpeed : ℚ := 12

/-- The constructor `Player`: a 50 by 50 moving rectangle at rest. -/
def Player.new (x y : ℚ) : Player :=
  { toMovableRect := MovableRect.new x y 50 50 0 0, canJump := false }

/-- `Rect.prototype.setPosition` inherited by the player. -/
def Player.setPosition (self : Player) (x y : ℚ) : Player :=
  { self with toMovableRect := self.toMovableRect.setPosition x y }

/-- `MovableRect.prototype.setVelocity` inherited by the player. -/
def Player.setVelocity (self : Player) (vx vy : ℚ) : Player :=
  { self with toMovableRect := self.toMovableRect.setVelocity vx vy }

/-- `MovableRect.prototype.accelerate` inherited by the player. -/
def Player.accelerate (self : Player) (dvx dvy : ℚ) : Player :=
  { self with toMovableRect := self.toMovableRect.accelerate dvx dvy }

/-- `MovableRect.prototype.move` inherited by the player. -/
def Player.move (self : Player) : Player :=
  { self with toMovableRect := self.toMovableRect.move }

/-- `Player.prototype.handleInput`: six statements in sequence. -/
def Player.handleInput (self : Player) (keys : Keys) : Player :=
  let p1 := if keys.a then self.accelerate (-Player.acceleration) 0 else self
  let p2 := if keys.d then p1.accelerate Player.acceleration 0 else p1
  let p3 := if keys.w then p2.accelerate 0 (-Player.acceleration) else p2
  let p4 := if keys.s then p3.accelerate 0 Player.acceleration else p3
  let p5 :=
    if keys.space then
      if p4.canJump then
        ({ p4 with canJump := false } : Player).accelerate 0 (-Player.jumpSpeed)
      else p4
    else p4
  if keys.r then (p5.setPosition 200 100).setVelocity 0 0 else p5

/-- `Player.prototype.applyFriction`. -/
def Player.applyFriction (self : Player) : Player :=
  { self with vx := self.vx * Player.frictionMultiplier }

/-- `Player.prototype.applyGravity`. -/
def Player.applyGravity (self : Player) : Player :=
  { self with vy := self.vy + Player.gravity }

/-- `Player.prototype.handleCollision`: an `if` / `else if` chain of four
guarded branches with no final `else`. -/
def Player.handleCollision (self : Player) (platform : Platform) : Player :=
  if self.lastX + self.w ≤ platform.lastX then
    { self with x := platform.x - self.w, vx := 0 }
  else if self.lastX ≥ platform.lastX + platform.w then
    { self with x := platform.x + platform.w, vx := 0 }
  else if self.lastY + self.h ≤ platform.lastY then
    { self with y := platform.y - self.h, vy := 0, canJump := true }
  else if self.lastY ≥ platform.lastY + platform.h then
    { self with y := platform.y + platform.h, vy := 0 }
  else
    self

/-- The player as it stands in `Player.prototype.update` when `getCollisions`
is called: after friction, gravity, `move` and the reset of `canJump`. -/
def Player.integrate (self : Player) : Player :=
  let p1 := self.applyFriction
  let p2 := p1.applyGravity
  let p3 := p2.move
  { p3 with canJump := false }

/-- `Player.prototype.update`: integrate, query the map, then resolve the
collisions one after the other in the order of the returned array. -/
def Player.update (self : Player) (map : Map) : Player :=
  let p := self.integrate
  let collisions := map.getCollisions p.toRect
  collisions.foldl Player.handleCollision p

/-! ## Game -/

/-- The simulated part of the object built by `Game()`: the key table of its
keyboard manager, the player and the current map. -/
structure Game where
  keys : Keys
  player : Player
  currentMap : Map
deriving DecidableEq

/-- The constructor `Game`. -/
def Game.new : Game :=
  { keys := Keys.none
    player := Player.new 200 200
    currentMap := ⟨[
      Platform.new 100 400 150 100,
      Platform.new 150 300 50 50,
      Platform.new 450 300 50 50,
      Platform.new 150 250 350 50,
      Platform.new 400 400 150 100,
      Platform.new 650 300 100 200,
      Platform.new 50 500 700 100]⟩ }

/-- `Game.prototype.update`: advance the map, apply the input, update the player. -/
def Game.update (self : Game) : Game :=
  let map := self.currentMap.update
  let player := self.player.handleInput self.keys
  { self with currentMap := map, player := player.update map }

/-! ## Concrete scenarios -/

/-- The fourth platform of the default map, `Platform(150, 250, 350, 50)`. -/
def ledge : Platform := Platform.new 150 250 350 50

/-- A 50 by 50 player that before moving already overlapped `ledge` on both
axes (it was at `(200, 220)`) and has just fallen by half a unit. -/
def embeddedPlayer : Player :=
  { x := 200, y := 441 / 2, w := 50, h := 50, vx := 0, vy := 1 / 2,
    lastX := 200, lastY := 220, canJump := false }

/-- A 50 by 50 player that before moving touched the underside of `ledge` from
below (it was at `(200, 300)`) and has just moved up by five units. -/
def risingPlayer : Player :=
  { x := 200, y := 295, w := 50, h := 50, vx := 0, vy := -5,
    lastX := 200, lastY := 300, canJump := false }

/-- A 50 by 50 player that before moving was entirely to the left of `ledge` and
entirely above it (it was at `(90, 100)`), and has moved right by thirty units:
twenty units past the flush position `x = 100`. -/
def overshootPlayer : Player :=
  { x := 120, y := 100, w := 50, h := 50, vx := 30, vy := 0,
    lastX := 90, lastY := 100, canJump := false }

/-- A 50 by 50 player at the origin moving right and slightly up, far from
every platform of the default map. -/
def driftingPlayer : Player :=
  { x := 0, y := 0, w := 50, h := 50, vx := 20, vy := -1,
    lastX := 0, lastY := 0, canJump := true }

/-- A static platform a quarter of a unit thick, `Platform(0, 0, 50, 0.25)`. -/
def thinPlatform : Platform := Platform.new 0 0 50 (1 / 4)

/-- A player an eighth of a unit tall at rest on top of `thinPlatform`. -/
def thinPlayer : Player :=
  { x := 0, y := -(1 / 8), w := 50, h := 1 / 8, vx := 0, vy := 0,
    lastX := 0, lastY := -(1 / 8), canJump := true }

/-- The player built at `(200, 200)` once it stands on `ledge`: the state
`Player(200, 200)` with `canJump` set. -/
def standingPlayer : Player :=
  { Player.new 200 200 with canJump := true }

/-- The key table with only the jump key `" "` pressed. -/
def Keys.jumpOnly : Keys := ⟨false, false, false, false, true, false⟩

/-- The state built by the `Game` constructor with its player standing on the
fourth platform. -/
def Game.rested : Game :=
  { Game.new with player := standingPlayer }

/-- A second platform ten units below `ledge` and overlapping it, `Platform(150, 260, 350, 50)`. -/
def lowerLedge : Platform := Platform.new 150 260 350 50

/-- A wall standing on the right of the start position, `Platform(255, 100, 50, 200)`. -/
def wall : Platform := Platform.new 255 100 50 200

/-- A 50 by 50 player at `(200, 200)` falling at `11.5` units per tick: one tick
takes its lower edge from `250` to `262`, into both `ledge` and `lowerLedge`. -/
def fallingPlayer : Player :=
  { x := 200, y := 200, w := 50, h := 50, vx := 0, vy := 23 / 2,
    lastX := 200, lastY := 200, canJump := false }

/-- A 50 by 50 player at `(200, 200)` running right at `20` units per tick: one
tick takes it into `wall` from the left while gravity presses it onto `ledge`. -/
def runningPlayer : Player :=
  { x := 200, y := 200, w := 50, h := 50, vx := 20, vy := 0,
    lastX := 200, lastY := 200, canJump := true }

/-- A 50 by 50 player with horizontal velocity `10`. -/
def slidingPlayer : Player :=
  { x := 0, y := 0, w := 50, h := 50, vx := 10, vy := 0,
    lastX := 0, lastY := 0, canJump := false }

/-! ## The branch taken by `handleCollision` -/

/-- The branches of `Player.prototype.handleCollision` in source order, and
`none` for the case in which no guard holds. -/
inductive Side where
  | left
  | right
  | top
  | bottom
  | none
deriving DecidableEq

/-- The guards of the `if` / `else if` chain of `handleCollision`: the branch entered. -/
def Player.collisionSide (self : Player) (platform : Platform) : Side :=
  if self.lastX + self.w ≤ platform.lastX then Side.left
  else if self.lastX ≥ platform.lastX + platform.w then Side.right
  else if self.lastY + self.h ≤ platform.lastY then Side.top
  else if self.lastY ≥ platform.lastY + platform.h then Side.bottom
  else Side.none

/-- The bodies of the branches of `handleCollision`. -/
def Player.resolve (self : Player) (platform : Platform) : Side → Player
  | Side.left => { self with x := platform.x - self.w, vx := 0 }
  | Side.right => { self with x := platform.x + platform.w, vx := 0 }
  | Side.top => { self with y := platform.y - self.h, vy := 0, canJump := true }
  | Side.bottom => { self with y := platform.y + platform.h, vy := 0 }
  | Side.none => self

/-- The branches whose body writes `x` and `vx`. -/
def Side.horizontal : Side → Bool
  | Side.left => true
  | Side.right => true
  | _ => false

/-- The branches whose body writes `y` and `vy`. -/
def Side.vertical : Side → Bool
  | Side.top => true
  | Side.bottom => true
  | _ => false

/-! ## The tick with the map threaded through -/

/-- `Player.prototype.update` with the map object it was handed returned next to
the player.  The only statement of `update` that reaches `map.platforms` is the
call of `getCollisions`, so the map after the call holds the array that the scan
ends with; `handleCollision` contains no assignment to a field of its argument. -/
def Player.updateWorld (self : Player) (map : Map) : Player × Map :=
  let p := self.integrate
  let scan := map.getCollisionsRun p.toRect
  (scan.collisions.foldl Player.handleCollision p, { map with platforms := scan.platforms })

/-- The player after `n` calls of `Player.prototype.update` on the same map. -/
def Player.ticks (self : Player) (map : Map) (n : Nat) : Player :=
  (fun q : Player => q.update map)^[n] self

/-! ## Binary64 numbers

The definitions so far compute over exact rationals.  Where a property turns on
the rounding of JavaScript numbers, the functions concerned are embedded a
second time, below, with every arithmetic operation followed by the rounding
`fl` to the nearest binary64 value.  A binary64 number is represented by the
rational it denotes; overflow to an infinity and NaN are not represented, and
the theorems that depend on a result being a binary64 number say so through
`Representable`, which bounds the magnitude below `2^1024`. -/

/-- Round a rational to the nearest integer, a tie going to the even one. -/
def roundHalfEven (r : ℚ) : ℤ :=
  if r - ⌊r⌋ < 1 / 2 then ⌊r⌋
  else if 1 / 2 < r - ⌊r⌋ then ⌊r⌋ + 1
  else if ⌊r⌋ % 2 = 0 then ⌊r⌋ else ⌊r⌋ + 1

/-- The binary exponent that fixes the spacing of the binary64 values around a
positive `q`: `⌊log₂ q⌋` for a normal number, `-1022` in the subnormal range. -/
def binade (q : ℚ) : ℤ := max (Int.log 2 q) (-1022)

/-- The spacing of the binary64 values in the binade of `q`: 53 significant bits. -/
def ulp (q : ℚ) : ℚ := 2 ^ (binade q - 52)

/-- Binary64 rounding of a magnitude: the nearest multiple of `ulp q`, ties to even. -/
def roundAbs (q : ℚ) : ℚ := roundHalfEven (q / ulp q) * ulp q

/-- The binary64 value nearest to `q`: round to nearest, ties to even, on the
magnitude, keeping the sign; this is the rounding of every JavaScript
arithmetic operation and of a decimal literal. -/
def fl (q : ℚ) : ℚ := if q < 0 then -roundAbs (-q) else roundAbs q

/-- Whether `q` is the value of a finite binary64 number. -/
def Representable (q : ℚ) : Bool :=
  decide (fl q = q) && decide (|q| < 2 ^ 1024)

/-! ## The code on binary64 numbers -/

/-- `Rect.prototype.translate` on binary64 numbers: each `+=` rounds. -/
def Rect.translate64 (self : Rect) (dx dy : ℚ) : Rect :=
  { self with x := fl (self.x + dx), y := fl (self.y + dy) }

/-- `Rect.prototype.grow` on binary64 numbers. -/
def Rect.grow64 (self : Rect) (dw dh : ℚ) : Rect :=
  { self with w := fl (self.w + dw), h := fl (self.h + dh) }

/-- `Rect.prototype.inflate` on binary64 numbers: the negations are exact, the
products `2*dw` and `2*dh` and the four sums round. -/
def Rect.inflate64 (self : Rect) (dw dh : ℚ) : Rect :=
  (self.translate64 (-dw) (-dh)).grow64 (fl (2 * dw)) (fl (2 * dh))

/-- `Rect.prototype.colliding` on binary64 numbers: the four sums round before
they are compared. -/
def Rect.colliding64 (self other : Rect) : Bool :=
  !(decide (fl (self.x + self.w) < other.x) ||
    decide (fl (self.y + self.h) < other.y) ||
    decide (self.x > fl (other.x + other.w)) ||
    decide (self.y > fl (other.y + other.h)))

/-- `MovableRect.prototype.move` on binary64 numbers. -/
def MovableRect.move64 (self : MovableRect) : MovableRect :=
  let saved := self.saveOldPosition
  { saved with toRect := saved.toRect.translate64 saved.vx saved.vy }

/-- `Player.prototype.frictionMultiplier` as the code holds it: the binary64
value of the literal `0.95`. -/
def Player.frictionMultiplier64 : ℚ := fl (19 / 20)

/-- `Player.prototype.applyFriction` on binary64 numbers. -/
def Player.applyFriction64 (self : Player) : Player :=
  { self with vx := fl (self.vx * Player.frictionMultiplier64) }

/-- `Player.prototype.applyGravity` on binary64 numbers; the literal `0.5` is exact. -/
def Player.applyGravity64 (self : Player) : Player :=
  { self with vy := fl (self.vy + Player.gravity) }

/-- `MovableRect.prototype.move` inherited by the player, on binary64 numbers. -/
def Player.move64 (self : Player) : Player :=
  { self with toMovableRect := self.toMovableRect.move64 }

/-- `Player.prototype.handleCollision` on binary64 numbers: the sums in the
guards and the snapped coordinates round. -/
def Player.handleCollision64 (self : Player) (platform : Platform) : Player :=
  if fl (self.lastX + self.w) ≤ platform.lastX then
    { self with x := fl (platform.x - self.w), vx := 0 }
  else if self.lastX ≥ fl (platform.lastX + platform.w) then
    { self with x := fl (platform.x + platform.w), vx := 0 }
  else if fl (self.lastY + self.h) ≤ platform.lastY then
    { self with y := fl (platform.y - self.h), vy := 0, canJump := true }
  else if self.lastY ≥ fl (platform.lastY + platform.h) then
    { self with y := fl (platform.y + platform.h), vy := 0 }
  else
    self

/-- One pass through the body of the `for` loop of `getCollisions`, on binary64 numbers. -/
def Map.getCollisionsStep64 (rect : Rect) (s : Scan) : Scan :=
  match s.platforms[s.i]? with
  | some p =>
      if p.toRect.colliding64 rect then
        { s with collisions := s.collisions ++ [p], i := s.i + 1 }
      else
        { s with i := s.i + 1 }
  | none => s

/-- The `for` loop of `getCollisions` on binary64 numbers, for at most `fuel` passes. -/
def Map.getCollisionsLoop64 (rect : Rect) : Nat → Scan → Scan
  | 0, s => s
  | fuel + 1, s =>
      if s.i < s.platforms.length then
        Map.getCollisionsLoop64 rect fuel (Map.getCollisionsStep64 rect s)
      else
        s

/-- `Map.prototype.getCollisions` on binary64 numbers: the returned array. -/
def Map.getCollisions64 (self : Map) (rect : Rect) : List Platform :=
  (Map.getCollisionsLoop64 rect self.platforms.length ⟨self.platforms, [], 0⟩).collisions

/-- The player when `update` calls `getCollisions`, on binary64 numbers. -/
def Player.integrate64 (self : Player) : Player :=
  let p1 := self.applyFriction64
  let p2 := p1.applyGravity64
  let p3 := p2.move64
  { p3 with canJump := false }

/-- `Player.prototype.update` on binary64 numbers. -/
def Player.update64 (self : Player) (map : Map) : Player :=
  let p := self.integrate64
  let collisions := map.getCollisions64 p.toRect
  collisions.foldl Player.handleCollision64 p

/-! ## Concrete scenarios on binary64 numbers -/

/-- The binary64 value of the literal `0.1`. -/
def tenth : ℚ := fl (1 / 10)

/-- The binary64 value of the literal `0.2`. -/
def fifth : ℚ := fl (1 / 5)

/-- The rectangle `Rect(0.1, 0.1, 1, 1)`. -/
def tenthRect : Rect := ⟨tenth, tenth, 1, 1⟩

/-- A static platform whose top edge is at `0.1`, `Platform(0, 0.1, 100, 10)`. -/
def offGridFloor : Platform := Platform.new 0 tenth 100 10

/-- A static platform whose left edge is at `0.1`, `Platform(0.1, 0, 100, 100)`. -/
def offGridWall : Platform := Platform.new tenth 0 100 100

/-- The 50 by 50 player as a landing on `offGridFloor` leaves it: `y` is the
binary64 difference `0.1 - 50` that `handleCollision` wrote, the velocity is
zero and `canJump` is set. -/
def landedPlayer : Player :=
  { x := 0, y := fl (tenth - 50), w := 50, h := 50, vx := 0, vy := 0,
    lastX := 0, lastY := fl (tenth - 50), canJump := true }

/-- A 50 by 50 player that before moving was entirely to the left of
`offGridWall` (it was at `(-60, 20)`) and has moved right by thirty units. -/
def approachingPlayer : Player :=
  { x := -30, y := 20, w := 50, h := 50, vx := 30, vy := 0,
    lastX := -60, lastY := 20, canJump := false }

/-- A 50 by 50 player whose horizontal velocity has decayed to the subnormal
binary64 value `9 * 2^-1074`, about `4.4e-323`. -/
def creepingPlayer : Player :=
  { x := 0, y := 0, w := 50, h := 50, vx := 9 * 2 ^ (-1074 : ℤ), vy := 0,
    lastX := 0, lastY := 0, canJump := false }

/-! ## The collision query as a filter -/

/-- The loop of `getCollisions`, started at index `i` with enough fuel for the
remaining platforms, stops at the end of the array having appended the
colliding platforms from index `i` on, and with `platforms` as it was. -/
theorem getCollisionsLoop_eq (rect : Rect) :
    ∀ (fuel : Nat) (s : Scan), s.i ≤ s.platforms.length →
      s.platforms.length - s.i ≤ fuel →
      Map.getCollisionsLoop rect fuel s =
        ⟨s.platforms,
         s.collisions ++ (s.platforms.drop s.i).filter (fun p => p.toRect.colliding rect),
         s.platforms.length⟩ := by
  intro fuel
  induction fuel with
  | zero =>
      intro s hle hfuel
      have hi : s.i = s.platforms.length := by omega
      obtain ⟨ps, cs, i⟩ := s
      simp only at hi
      subst hi
      simp [Map.getCollisionsLoop]
  | succ fuel ih =>
      intro s hle hfuel
      obtain ⟨ps, cs, i⟩ := s
      simp only at hle hfuel
      by_cases hlt : i < ps.length
      · have hget : ps[i]? = some ps[i] := List.getElem?_eq_getElem hlt
        have hdrop : ps.drop i = ps[i] :: ps.drop (i + 1) := List.drop_eq_getElem_cons hlt
        by_cases hc : ps[i].toRect.colliding rect = true
        · have hstep : Map.getCollisionsStep rect ⟨ps, cs, i⟩ = ⟨ps, cs ++ [ps[i]], i + 1⟩ := by
            simp [Map.getCollisionsStep, hget, hc]
          simp only [Map.getCollisionsLoop, hlt, if_true, hstep]
          rw [ih ⟨ps, cs ++ [ps[i]], i + 1⟩ (by simpa using hlt) (by simp only; omega)]
          have hfil : (ps[i] :: ps.drop (i + 1)).filter (fun p => p.toRect.colliding rect) =
              ps[i] :: (ps.drop (i + 1)).filter (fun p => p.toRect.colliding rect) :=
            List.filter_cons_of_pos hc
          simp only [hdrop, hfil, List.append_assoc, List.singleton_append]
        · have hstep : Map.getCollisionsStep rect ⟨ps, cs, i⟩ = ⟨ps, cs, i + 1⟩ := by
            simp [Map.getCollisionsStep, hget, hc]
          simp only [Map.getCollisionsLoop, hlt, if_true, hstep]
          rw [ih ⟨ps, cs, i + 1⟩ (by simpa using hlt) (by simp only; omega)]
          have hfil : (ps[i] :: ps.drop (i + 1)).filter (fun p => p.toRect.colliding rect) =
              (ps.drop (i + 1)).filter (fun p => p.toRect.colliding rect) :=
            List.filter_cons_of_neg hc
          simp only [hdrop, hfil]
      · have hi : i = ps.length := by omega
        subst hi
        simp [Map.getCollisionsLoop]

/-- The state at the return of `getCollisions`. -/
theorem getCollisionsRun_eq (m : Map) (rect : Rect) :
    m.getCollisionsRun rect =
      ⟨m.platforms, m.platforms.filter (fun p => p.toRect.colliding rect),
       m.platforms.length⟩ := by
  unfold Map.getCollisionsRun
  rw [getCollisionsLoop_eq rect m.platforms.length ⟨m.platforms, [], 0⟩
    (Nat.zero_le _) (by simp)]
  simp

/-- The array returned by `getCollisions` is the platform list filtered by `colliding`. -/
theorem getCollisions_eq_filter (m : Map) (rect : Rect) :
    m.getCollisions rect = m.platforms.filter (fun p => p.toRect.colliding rect) := by
  simp [Map.getCollisions, getCollisionsRun_eq]

/-! ## Branches of `handleCollision` -/

/-- First branch: the player was entirely to the left before moving. -/
theorem handleCollision_of_left (pl : Player) (p : Platform)
    (h : pl.lastX + pl.w ≤ p.lastX) :
    pl.handleCollision p = { pl with x := p.x - pl.w, vx := 0 } := by
  simp [Player.handleCollision, h]

/-- Second branch: not to the left, entirely to the right before moving. -/
theorem handleCollision_of_right (pl : Player) (p : Platform)
    (h1 : ¬ pl.lastX + pl.w ≤ p.lastX) (h2 : pl.lastX ≥ p.lastX + p.w) :
    pl.handleCollision p = { pl with x := p.x + p.w, vx := 0 } := by
  simp [Player.handleCollision, h1, h2]

/-- Third branch: horizontally overlapping and entirely above before moving. -/
theorem handleCollision_of_above (pl : Player) (p : Platform)
    (h1 : ¬ pl.lastX + pl.w ≤ p.lastX) (h2 : ¬ pl.lastX ≥ p.lastX + p.w)
    (h3 : pl.lastY + pl.h ≤ p.lastY) :
    pl.handleCollision p = { pl with y := p.y - pl.h, vy := 0, canJump := true } := by
  simp [Player.handleCollision, h1, h2, h3]

/-- Fourth branch and fall-through: horizontally overlapping and not entirely above. -/
theorem handleCollision_of_not_above (pl : Player) (p : Platform)
    (h1 : ¬ pl.lastX + pl.w ≤ p.lastX) (h2 : ¬ pl.lastX ≥ p.lastX + p.w)
    (h3 : ¬ pl.lastY + pl.h ≤ p.lastY) :
    pl.handleCollision p =
      if pl.lastY ≥ p.lastY + p.h then { pl with y := p.y + p.h, vy := 0 } else pl := by
  simp [Player.handleCollision, h1, h2, h3]

/-! ## Claims about `handleCollision` -/

/-- C1 (as amended): when none of the first three branch conditions holds,
`handleCollision` sets `y = platform.y + platform.h` and `vy = 0`, leaving the
other fields, provided `lastY >= platform.lastY + platform.h`; when that fourth
condition fails as well (the pre-move rectangles overlapped on both axes) it
leaves the player as it was. -/
theorem handleCollision_below_or_overlapping (pl : Player) (p : Platform)
    (h1 : ¬ pl.lastX + pl.w ≤ p.lastX) (h2 : ¬ pl.lastX ≥ p.lastX + p.w)
    (h3 : ¬ pl.lastY + pl.h ≤ p.lastY) :
    (pl.lastY ≥ p.lastY + p.h →
        pl.handleCollision p = { pl with y := p.y + p.h, vy := 0 }) ∧
    (¬ pl.lastY ≥ p.lastY + p.h → pl.handleCollision p = pl) := by
  rw [handleCollision_of_not_above pl p h1 h2 h3]
  constructor
  · intro h4
    rw [if_pos h4]
  · intro h4
    rw [if_neg h4]

/-- C1 (witness): `risingPlayer` against `ledge` meets none of the first three
conditions and was below the platform, and is snapped to `y = 300` with `vy = 0`. -/
theorem handleCollision_below_or_overlapping_witness :
    ¬ risingPlayer.lastX + risingPlayer.w ≤ ledge.lastX ∧
    ¬ risingPlayer.lastX ≥ ledge.lastX + ledge.w ∧
    ¬ risingPlayer.lastY + risingPlayer.h ≤ ledge.lastY ∧
    risingPlayer.lastY ≥ ledge.lastY + ledge.h ∧
    risingPlayer.handleCollision ledge = { risingPlayer with y := 300, vy := 0 } := by
  have h1 : ¬ risingPlayer.lastX + risingPlayer.w ≤ ledge.lastX := by
    norm_num [risingPlayer, ledge, Platform.new, MovableRect.new]
  have h2 : ¬ risingPlayer.lastX ≥ ledge.lastX + ledge.w := by
    norm_num [risingPlayer, ledge, Platform.new, MovableRect.new]
  have h3 : ¬ risingPlayer.lastY + risingPlayer.h ≤ ledge.lastY := by
    norm_num [risingPlayer, ledge, Platform.new, MovableRect.new]
  have h4 : risingPlayer.lastY ≥ ledge.lastY + ledge.h := by
    norm_num [risingPlayer, ledge, Platform.new, MovableRect.new]
  refine ⟨h1, h2, h3, h4, ?_⟩
  rw [(handleCollision_below_or_overlapping risingPlayer ledge h1 h2 h3).1 h4]
  norm_num [risingPlayer, ledge, Platform.new, MovableRect.new]

/-- C1 (counterexample to the claim as stated): `embeddedPlayer` against `ledge`
meets none of the first three branch conditions, its pre-move rectangle
overlapping the platform on both axes, yet `handleCollision` leaves it as it
was: `y` stays `441/2`, not `ledge.y + ledge.h = 300`, and `vy` stays `1/2`, not `0`. -/
theorem handleCollision_overlapping_not_snapped :
    ¬ embeddedPlayer.lastX + embeddedPlayer.w ≤ ledge.lastX ∧
    ¬ embeddedPlayer.lastX ≥ ledge.lastX + ledge.w ∧
    ¬ embeddedPlayer.lastY + embeddedPlayer.h ≤ ledge.lastY ∧
    embeddedPlayer.handleCollision ledge = embeddedPlayer ∧
    (embeddedPlayer.handleCollision ledge).y ≠ ledge.y + ledge.h ∧
    (embeddedPlayer.handleCollision ledge).vy ≠ 0 := by
  have h1 : ¬ embeddedPlayer.lastX + embeddedPlayer.w ≤ ledge.lastX := by
    norm_num [embeddedPlayer, ledge, Platform.new, MovableRect.new]
  have h2 : ¬ embeddedPlayer.lastX ≥ ledge.lastX + ledge.w := by
    norm_num [embeddedPlayer, ledge, Platform.new, MovableRect.new]
  have h3 : ¬ embeddedPlayer.lastY + embeddedPlayer.h ≤ ledge.lastY := by
    norm_num [embeddedPlayer, ledge, Platform.new, MovableRect.new]
  have h4 : ¬ embeddedPlayer.lastY ≥ ledge.lastY + ledge.h := by
    norm_num [embeddedPlayer, ledge, Platform.new, MovableRect.new]
  have hsame : embeddedPlayer.handleCollision ledge = embeddedPlayer := by
    rw [handleCollision_of_not_above embeddedPlayer ledge h1 h2 h3, if_neg h4]
  refine ⟨h1, h2, h3, hsame, ?_, ?_⟩
  · rw [hsame]
    norm_num [embeddedPlayer, ledge, Platform.new, MovableRect.new]
  · rw [hsame]
    norm_num [embeddedPlayer]

/-- C2: when `lastX + w <= platform.lastX`, `handleCollision` sets
`x = platform.x - w` and `vx = 0` whatever `x` was, and leaves `y`, `vy` and
`canJump` (indeed every other field) unchanged, with no condition on the
vertical pre-move position. -/
theorem handleCollision_left_snap (pl : Player) (p : Platform)
    (h : pl.lastX + pl.w ≤ p.lastX) :
    (pl.handleCollision p).x = p.x - pl.w ∧
    (pl.handleCollision p).vx = 0 ∧
    (pl.handleCollision p).y = pl.y ∧
    (pl.handleCollision p).vy = pl.vy ∧
    (pl.handleCollision p).canJump = pl.canJump ∧
    pl.handleCollision p = { pl with x := p.x - pl.w, vx := 0 } := by
  rw [handleCollision_of_left pl p h]
  exact ⟨rfl, rfl, rfl, rfl, rfl, rfl⟩

/-- C2 (witness): `overshootPlayer`, twenty units past the flush position and
entirely above `ledge` before moving, is snapped to `x = 100` with `vx = 0`. -/
theorem handleCollision_left_snap_witness :
    overshootPlayer.lastX + overshootPlayer.w ≤ ledge.lastX ∧
    overshootPlayer.lastY + overshootPlayer.h ≤ ledge.lastY ∧
    overshootPlayer.x = (ledge.x - overshootPlayer.w) + 20 ∧
    (overshootPlayer.handleCollision ledge).x = 100 ∧
    (overshootPlayer.handleCollision ledge).vx = 0 ∧
    (overshootPlayer.handleCollision ledge).y = 100 ∧
    (overshootPlayer.handleCollision ledge).vy = 0 ∧
    (overshootPlayer.handleCollision ledge).canJump = false := by
  have h : overshootPlayer.lastX + overshootPlayer.w ≤ ledge.lastX := by
    norm_num [overshootPlayer, ledge, Platform.new, MovableRect.new]
  obtain ⟨hx, hvx, hy, hvy, hj, -⟩ := handleCollision_left_snap overshootPlayer ledge h
  refine ⟨h, ?_, ?_, ?_, hvx, ?_, ?_, ?_⟩
  · norm_num [overshootPlayer, ledge, Platform.new, MovableRect.new]
  · norm_num [overshootPlayer, ledge, Platform.new, MovableRect.new]
  · rw [hx]
    norm_num [overshootPlayer, ledge, Platform.new, MovableRect.new]
  · rw [hy]
    rfl
  · rw [hvy]
    rfl
  · rw [hj]
    rfl

/-! ## Claims about `colliding` and `getCollisions` -/

/-- C6: `A.colliding(B)` is true exactly when the rectangles overlap inclusively
on both axes, `A.x <= B.x + B.w`, `B.x <= A.x + A.w`, `A.y <= B.y + B.h` and
`B.y <= A.y + A.h`; in particular `(0,0,10,10)` and `(10,0,10,10)`, which share
one edge, collide. -/
theorem colliding_iff_inclusive_overlap :
    (∀ A B : Rect, A.colliding B = true ↔
      (A.x ≤ B.x + B.w ∧ B.x ≤ A.x + A.w ∧ A.y ≤ B.y + B.h ∧ B.y ≤ A.y + A.h)) ∧
    Rect.colliding ⟨0, 0, 10, 10⟩ ⟨10, 0, 10, 10⟩ = true := by
  constructor
  · intro A B
    simp only [Rect.colliding, Bool.not_eq_true', Bool.or_eq_false_iff, decide_eq_false_iff_not,
      not_lt, gt_iff_lt]
    constructor
    · rintro ⟨⟨⟨h1, h2⟩, h3⟩, h4⟩
      exact ⟨h3, h1, h4, h2⟩
    · rintro ⟨h3, h1, h4, h2⟩
      exact ⟨⟨⟨h1, h2⟩, h3⟩, h4⟩
  · norm_num [Rect.colliding]

/-- C7: `colliding` is symmetric, for rectangles of any position and size. -/
theorem colliding_symm (A B : Rect) : A.colliding B = B.colliding A := by
  have key : ∀ X Y : Rect, X.colliding Y = true → Y.colliding X = true := by
    intro X Y h
    simp only [Rect.colliding, Bool.not_eq_true', Bool.or_eq_false_iff, decide_eq_false_iff_not,
      not_lt, gt_iff_lt] at h ⊢
    obtain ⟨⟨⟨h1, h2⟩, h3⟩, h4⟩ := h
    exact ⟨⟨⟨h3, h4⟩, h1⟩, h2⟩
  cases hab : A.colliding B <;> cases hba : B.colliding A
  · rfl
  · have := key B A hba
    rw [hab] at this
    exact this
  · have := key A B hab
    rw [hba] at this
    exact this.symm
  · rfl

/-- C8: `getCollisions(r)` returns the platform list filtered by `colliding(r)`:
its members are exactly the platforms of the map that collide with `r`, each as
many times as it is registered, in registration order; the scan stops at the end
of the list, which it leaves unchanged. -/
theorem getCollisions_is_filter (m : Map) (r : Rect) :
    m.getCollisions r = m.platforms.filter (fun p => p.toRect.colliding r) ∧
    (∀ p, p ∈ m.getCollisions r ↔ p ∈ m.platforms ∧ p.toRect.colliding r = true) ∧
    (∀ p, p.toRect.colliding r = true →
      (m.getCollisions r).count p = m.platforms.count p) ∧
    (m.getCollisions r).Sublist m.platforms ∧
    (m.getCollisionsRun r).platforms = m.platforms ∧
    (m.getCollisionsRun r).i = m.platforms.length := by
  refine ⟨getCollisions_eq_filter m r, ?_, ?_, ?_, ?_, ?_⟩
  · intro p
    rw [getCollisions_eq_filter, List.mem_filter]
  · intro p hp
    rw [getCollisions_eq_filter, List.count_filter]
    simpa using hp
  · rw [getCollisions_eq_filter]
    exact List.filter_sublist _
  · rw [getCollisionsRun_eq]
  · rw [getCollisionsRun_eq]

/-! ## The tick of the player -/

/-- The integration phase of `update`, field by field. -/
theorem integrate_eq (pl : Player) :
    pl.integrate =
      { x := pl.x + pl.vx * (19 / 20), y := pl.y + (pl.vy + 1 / 2), w := pl.w, h := pl.h,
        vx := pl.vx * (19 / 20), vy := pl.vy + 1 / 2, lastX := pl.x, lastY := pl.y,
        canJump := false } := by
  simp [Player.integrate, Player.applyFriction, Player.applyGravity, Player.move,
    MovableRect.move, MovableRect.saveOldPosition, MovableRect.translate, Rect.translate,
    Player.frictionMultiplier, Player.gravity]

/-- Resetting `canJump` does not change the rectangle handed to `getCollisions`. -/
theorem integrate_toRect (pl : Player) :
    pl.integrate.toRect = pl.applyFriction.applyGravity.move.toRect := rfl

/-- The tick in terms of the filtered platform list. -/
theorem update_eq_foldl (pl : Player) (m : Map) :
    pl.update m =
      (m.platforms.filter (fun p => p.toRect.colliding pl.integrate.toRect)).foldl
        Player.handleCollision pl.integrate := by
  simp [Player.update, getCollisions_eq_filter]

/-- With no colliding platform the tick is the integration phase alone. -/
theorem update_of_no_collision (pl : Player) (m : Map)
    (hfree : ∀ p ∈ m.platforms, p.toRect.colliding pl.integrate.toRect = false) :
    pl.update m = pl.integrate := by
  rw [update_eq_foldl]
  have hnil : m.platforms.filter (fun p => p.toRect.colliding pl.integrate.toRect) = [] := by
    rw [List.filter_eq_nil_iff]
    intro p hp
    simp [hfree p hp]
  rw [hnil]
  rfl

/-- With a single platform that collides, the tick resolves exactly that collision. -/
theorem update_single_of_colliding (pl : Player) (p : Platform)
    (hc : p.toRect.colliding pl.integrate.toRect = true) :
    pl.update ⟨[p]⟩ = pl.integrate.handleCollision p := by
  rw [update_eq_foldl]
  simp [List.filter, hc]

/-- With a single platform that does not collide, the tick is the integration phase alone. -/
theorem update_single_of_not_colliding (pl : Player) (p : Platform)
    (hc : p.toRect.colliding pl.integrate.toRect = false) :
    pl.update ⟨[p]⟩ = pl.integrate := by
  rw [update_eq_foldl]
  simp [List.filter, hc]

/-- C3: with the single platform `p`, a player that before the tick strictly
overlaps `p` horizontally on the pre-move positions and is entirely above it,
and whose rectangle after friction, gravity and move collides with `p`, ends
`update` with `y = p.y - h`, `vy = 0`, `canJump = true`, and with `x` and `vx`
as integrated (`vx` multiplied by `0.95`, `x` advanced by the new `vx`). -/
theorem update_lands_on_top (pl : Player) (p : Platform)
    (hx1 : pl.x + pl.w > p.lastX) (hx2 : pl.x < p.lastX + p.w)
    (hy : pl.y + pl.h ≤ p.lastY)
    (hc : p.toRect.colliding pl.applyFriction.applyGravity.move.toRect = true) :
    (pl.update ⟨[p]⟩).y = p.y - pl.h ∧
    (pl.update ⟨[p]⟩).vy = 0 ∧
    (pl.update ⟨[p]⟩).canJump = true ∧
    (pl.update ⟨[p]⟩).vx = pl.vx * Player.frictionMultiplier ∧
    (pl.update ⟨[p]⟩).x = pl.x + pl.vx * Player.frictionMultiplier := by
  rw [update_single_of_colliding pl p hc]
  have h1 : ¬ pl.integrate.lastX + pl.integrate.w ≤ p.lastX := by
    rw [integrate_eq]
    exact not_le.mpr hx1
  have h2 : ¬ pl.integrate.lastX ≥ p.lastX + p.w := by
    rw [integrate_eq]
    exact not_le.mpr hx2
  have h3 : pl.integrate.lastY + pl.integrate.h ≤ p.lastY := by
    rw [integrate_eq]
    exact hy
  rw [handleCollision_of_above pl.integrate p h1 h2 h3, integrate_eq]
  simp [Player.frictionMultiplier]

/-- C3 (witness): the player built at `(200, 200)` lands on `ledge` in one tick. -/
theorem update_lands_on_top_witness :
    (Player.new 200 200).x + (Player.new 200 200).w > ledge.lastX ∧
    (Player.new 200 200).x < ledge.lastX + ledge.w ∧
    (Player.new 200 200).y + (Player.new 200 200).h ≤ ledge.lastY ∧
    ledge.toRect.colliding (Player.new 200 200).applyFriction.applyGravity.move.toRect = true ∧
    ((Player.new 200 200).update ⟨[ledge]⟩).y = 200 ∧
    ((Player.new 200 200).update ⟨[ledge]⟩).vy = 0 ∧
    ((Player.new 200 200).update ⟨[ledge]⟩).canJump = true ∧
    ((Player.new 200 200).update ⟨[ledge]⟩).vx = 0 ∧
    ((Player.new 200 200).update ⟨[ledge]⟩).x = 200 := by
  have hx1 : (Player.new 200 200).x + (Player.new 200 200).w > ledge.lastX := by
    norm_num [Player.new, ledge, Platform.new, MovableRect.new]
  have hx2 : (Player.new 200 200).x < ledge.lastX + ledge.w := by
    norm_num [Player.new, ledge, Platform.new, MovableRect.new]
  have hy : (Player.new 200 200).y + (Player.new 200 200).h ≤ ledge.lastY := by
    norm_num [Player.new, ledge, Platform.new, MovableRect.new]
  have hc : ledge.toRect.colliding
      (Player.new 200 200).applyFriction.applyGravity.move.toRect = true := by
    rw [← integrate_toRect, integrate_eq]
    norm_num [Rect.colliding, Player.new, ledge, Platform.new, MovableRect.new]
  obtain ⟨ry, rvy, rj, rvx, rx⟩ := update_lands_on_top (Player.new 200 200) ledge hx1 hx2 hy hc
  refine ⟨hx1, hx2, hy, hc, ?_, rvy, rj, ?_, ?_⟩
  · rw [ry]
    norm_num [Player.new, ledge, Platform.new, MovableRect.new]
  · rw [rvx]
    norm_num [Player.new, MovableRect.new]
  · rw [rx]
    norm_num [Player.new, MovableRect.new]

/-- C9: when no platform of the map collides with the player's post-move
rectangle, `update` yields `vx = 0.95 * vx0`, `vy = vy0 + 0.5`, `x = x0 + vx`,
`y = y0 + vy` (the position is advanced by the velocity already updated),
`lastX = x0`, `lastY = y0`, `canJump = false`, and `w`, `h` unchanged. -/
theorem update_free_flight (pl : Player) (m : Map)
    (hfree : ∀ p ∈ m.platforms,
      p.toRect.colliding pl.applyFriction.applyGravity.move.toRect = false) :
    (pl.update m).vx = 19 / 20 * pl.vx ∧
    (pl.update m).vy = pl.vy + 1 / 2 ∧
    (pl.update m).x = pl.x + (pl.update m).vx ∧
    (pl.update m).y = pl.y + (pl.update m).vy ∧
    (pl.update m).lastX = pl.x ∧
    (pl.update m).lastY = pl.y ∧
    (pl.update m).canJump = false ∧
    (pl.update m).w = pl.w ∧
    (pl.update m).h = pl.h := by
  rw [update_of_no_collision pl m hfree, integrate_eq]
  refine ⟨?_, rfl, rfl, rfl, rfl, rfl, rfl, rfl, rfl⟩
  show pl.vx * (19 / 20) = 19 / 20 * pl.vx
  ring

/-- C9 (witness): `driftingPlayer` in the default map collides with nothing and
moves from `(0, 0)` to `(19, -1/2)` with velocity `(19, -1/2)`. -/
theorem update_free_flight_witness :
    (∀ p ∈ Game.new.currentMap.platforms,
      p.toRect.colliding driftingPlayer.applyFriction.applyGravity.move.toRect = false) ∧
    (driftingPlayer.update Game.new.currentMap).vx = 19 ∧
    (driftingPlayer.update Game.new.currentMap).vy = -(1 / 2) ∧
    (driftingPlayer.update Game.new.currentMap).x = 19 ∧
    (driftingPlayer.update Game.new.currentMap).y = -(1 / 2) ∧
    (driftingPlayer.update Game.new.currentMap).canJump = false := by
  have hfree : ∀ p ∈ Game.new.currentMap.platforms,
      p.toRect.colliding driftingPlayer.applyFriction.applyGravity.move.toRect = false := by
    intro p hp
    rw [← integrate_toRect, integrate_eq]
    simp only [Game.new, List.mem_cons, List.mem_singleton, List.not_mem_nil, or_false] at hp
    rcases hp with h | h | h | h | h | h | h <;> subst h <;>
      norm_num [Rect.colliding, driftingPlayer, Platform.new, MovableRect.new]
  obtain ⟨rvx, rvy, rx, ry, -, -, rj, -, -⟩ :=
    update_free_flight driftingPlayer Game.new.currentMap hfree
  have hvx : (driftingPlayer.update Game.new.currentMap).vx = 19 := by
    rw [rvx]
    norm_num [driftingPlayer]
  have hvy : (driftingPlayer.update Game.new.currentMap).vy = -(1 / 2) := by
    rw [rvy]
    norm_num [driftingPlayer]
  refine ⟨hfree, hvx, hvy, ?_, ?_, rj⟩
  · rw [rx, hvx]
    norm_num [driftingPlayer]
  · rw [ry, hvy]
    norm_num [driftingPlayer]

/-! ## Claims about `handleInput` -/

/-- C10: with the reset key `r` up, `handleInput` differs from the same call with
the jump key released exactly when the jump key is pressed and `canJump` is
true, and then by `vy` decreased by `jumpSpeed = 12` and `canJump` cleared; so
with `canJump` false the jump key changes nothing, and with only the jump key
pressed and `canJump` false the player is unchanged. -/
theorem handleInput_jump (pl : Player) (keys : Keys) (hr : keys.r = false) :
    (keys.space = true ∧ pl.canJump = true →
      pl.handleInput keys =
        { pl.handleInput { keys with space := false } with
          vy := (pl.handleInput { keys with space := false }).vy - 12,
          canJump := false }) ∧
    (¬ (keys.space = true ∧ pl.canJump = true) →
      pl.handleInput keys = pl.handleInput { keys with space := false }) ∧
    (keys.space = true ∧ pl.canJump = true →
      (pl.handleInput keys).vy ≠ (pl.handleInput { keys with space := false }).vy ∧
      (pl.handleInput keys).canJump = false) ∧
    (pl.canJump = false → pl.handleInput Keys.jumpOnly = pl) := by
  obtain ⟨ka, kd, kw, ks, ksp, kr⟩ := keys
  simp only at hr
  subst hr
  refine ⟨?_, ?_, ?_, ?_⟩
  · rintro ⟨hsp, hj⟩
    simp only at hsp
    subst hsp
    cases ka <;> cases kd <;> cases kw <;> cases ks <;>
      simp [Player.handleInput, Player.accelerate, MovableRect.accelerate, hj,
        Player.jumpSpeed, sub_eq_add_neg]
  · intro hn
    cases ksp
    · rfl
    · have hj : pl.canJump = false := by
        cases hc : pl.canJump
        · rfl
        · exact absurd ⟨rfl, hc⟩ hn
      cases ka <;> cases kd <;> cases kw <;> cases ks <;>
        simp [Player.handleInput, Player.accelerate, MovableRect.accelerate, hj]
  · rintro ⟨hsp, hj⟩
    simp only at hsp
    subst hsp
    cases ka <;> cases kd <;> cases kw <;> cases ks <;>
      simp [Player.handleInput, Player.accelerate, MovableRect.accelerate, hj,
        Player.jumpSpeed]
  · intro hj
    simp [Player.handleInput, Keys.jumpOnly, hj]

/-- C10 (witness): `standingPlayer`, whose `canJump` is true, with only the jump
key pressed gets `vy = -12` and `canJump = false`, nothing else changing. -/
theorem handleInput_jump_witness :
    Keys.jumpOnly.r = false ∧ Keys.jumpOnly.space = true ∧ standingPlayer.canJump = true ∧
    standingPlayer.handleInput Keys.jumpOnly =
      { standingPlayer with vy := -12, canJump := false } := by
  refine ⟨rfl, rfl, rfl, ?_⟩
  rw [(handleInput_jump standingPlayer Keys.jumpOnly rfl).1 ⟨rfl, rfl⟩]
  simp [Player.handleInput, Keys.jumpOnly, standingPlayer, Player.new, MovableRect.new]

/-! ## Resting on a platform -/

/-- A player at rest on top of a static platform, thick enough for the gravity
step not to carry the player past it, collides with it after integration. -/
theorem resting_collides (pl : Player) (p : Platform)
    (hvx : pl.vx = 0) (hvy : pl.vy = 0) (hy : pl.y = p.y - pl.h)
    (hx1 : pl.x + pl.w > p.x) (hx2 : pl.x < p.x + p.w)
    (hthick : Player.gravity ≤ pl.h + p.h) :
    p.toRect.colliding pl.integrate.toRect = true := by
  rw [integrate_eq]
  simp only [Rect.colliding, Bool.not_eq_true', Bool.or_eq_false_iff, decide_eq_false_iff_not,
    not_lt, gt_iff_lt, hvx, hvy, hy]
  simp only [Player.gravity] at hthick
  refine ⟨⟨⟨?_, ?_⟩, ?_⟩, ?_⟩ <;> linarith

/-- The tick of a player at rest on a static platform only refreshes the
snapshot `lastX`, `lastY` and sets `canJump`. -/
theorem update_resting_eq (pl : Player) (p : Platform)
    (hsx : p.lastX = p.x) (hsy : p.lastY = p.y)
    (hvx : pl.vx = 0) (hvy : pl.vy = 0) (hy : pl.y = p.y - pl.h)
    (hx1 : pl.x + pl.w > p.x) (hx2 : pl.x < p.x + p.w)
    (hthick : Player.gravity ≤ pl.h + p.h) :
    pl.update ⟨[p]⟩ = { pl with lastX := pl.x, lastY := pl.y, canJump := true } := by
  rw [update_single_of_colliding pl p (resting_collides pl p hvx hvy hy hx1 hx2 hthick)]
  have h1 : ¬ pl.integrate.lastX + pl.integrate.w ≤ p.lastX := by
    rw [integrate_eq, hsx]
    exact not_le.mpr hx1
  have h2 : ¬ pl.integrate.lastX ≥ p.lastX + p.w := by
    rw [integrate_eq, hsx]
    exact not_le.mpr hx2
  have h3 : pl.integrate.lastY + pl.integrate.h ≤ p.lastY := by
    rw [integrate_eq, hsy]
    show pl.y + pl.h ≤ p.y
    linarith
  rw [handleCollision_of_above pl.integrate p h1 h2 h3, integrate_eq]
  obtain ⟨⟨⟨x, y, w, h⟩, vx, vy, lx, ly⟩, cj⟩ := pl
  simp only at hvx hvy hy
  subst hvx hvy hy
  simp

/-- Over exact rationals: for a static platform `p` and a player with `vx = 0`,
`vy = 0`, `y = p.y - h`, `x + w > p.x`, `x < p.x + p.w`, and with the combined
height `h + p.h` at least the gravity step `0.5`, `update` on the map whose only
platform is `p` leaves `x`, `y`, `vx`, `vy` unchanged and sets `canJump = true`,
and a second `update` reproduces exactly the state of the first. -/
theorem update_resting_fixed (pl : Player) (p : Platform)
    (hsx : p.lastX = p.x) (hsy : p.lastY = p.y)
    (hvx : pl.vx = 0) (hvy : pl.vy = 0) (hy : pl.y = p.y - pl.h)
    (hx1 : pl.x + pl.w > p.x) (hx2 : pl.x < p.x + p.w)
    (hthick : Player.gravity ≤ pl.h + p.h) :
    (pl.update ⟨[p]⟩).x = pl.x ∧
    (pl.update ⟨[p]⟩).y = pl.y ∧
    (pl.update ⟨[p]⟩).vx = pl.vx ∧
    (pl.update ⟨[p]⟩).vy = pl.vy ∧
    (pl.update ⟨[p]⟩).canJump = true ∧
    (pl.update ⟨[p]⟩).update ⟨[p]⟩ = pl.update ⟨[p]⟩ := by
  have hfirst := update_resting_eq pl p hsx hsy hvx hvy hy hx1 hx2 hthick
  rw [hfirst]
  refine ⟨rfl, rfl, rfl, rfl, rfl, ?_⟩
  exact update_resting_eq { pl with lastX := pl.x, lastY := pl.y, canJump := true } p
    hsx hsy hvx hvy hy hx1 hx2 hthick

/-- Over exact rationals, `standingPlayer` on `ledge` is a fixed point of the tick. -/
theorem update_resting_fixed_witness :
    ledge.lastX = ledge.x ∧ ledge.lastY = ledge.y ∧
    standingPlayer.vx = 0 ∧ standingPlayer.vy = 0 ∧
    standingPlayer.y = ledge.y - standingPlayer.h ∧
    standingPlayer.x + standingPlayer.w > ledge.x ∧
    standingPlayer.x < ledge.x + ledge.w ∧
    Player.gravity ≤ standingPlayer.h + ledge.h ∧
    standingPlayer.update ⟨[ledge]⟩ = standingPlayer ∧
    (standingPlayer.update ⟨[ledge]⟩).update ⟨[ledge]⟩ = standingPlayer.update ⟨[ledge]⟩ := by
  have hy : standingPlayer.y = ledge.y - standingPlayer.h := by
    norm_num [standingPlayer, Player.new, ledge, Platform.new, MovableRect.new]
  have hx1 : standingPlayer.x + standingPlayer.w > ledge.x := by
    norm_num [standingPlayer, Player.new, ledge, Platform.new, MovableRect.new]
  have hx2 : standingPlayer.x < ledge.x + ledge.w := by
    norm_num [standingPlayer, Player.new, ledge, Platform.new, MovableRect.new]
  have hthick : Player.gravity ≤ standingPlayer.h + ledge.h := by
    norm_num [Player.gravity, standingPlayer, Player.new, ledge, Platform.new, MovableRect.new]
  refine ⟨rfl, rfl, rfl, rfl, hy, hx1, hx2, hthick, ?_,
    (update_resting_fixed standingPlayer ledge rfl rfl rfl rfl hy hx1 hx2 hthick).2.2.2.2.2⟩
  rw [update_resting_eq standingPlayer ledge rfl rfl rfl rfl hy hx1 hx2 hthick]
  rfl

/-- Over exact rationals already, thin shapes tunnel: `thinPlayer` rests on the static
`thinPlatform` with zero velocity, `y = p.y - h` and strict horizontal overlap,
yet one `update` moves it to `y = 3/8` with `vy = 1/2` and `canJump = false`:
the gravity step `0.5` exceeds the combined height `1/8 + 1/4`, so the moved
rectangle lies wholly below the platform and no collision is reported. -/
theorem update_thin_resting_falls :
    thinPlatform.lastX = thinPlatform.x ∧ thinPlatform.lastY = thinPlatform.y ∧
    thinPlayer.vx = 0 ∧ thinPlayer.vy = 0 ∧
    thinPlayer.y = thinPlatform.y - thinPlayer.h ∧
    thinPlayer.x + thinPlayer.w > thinPlatform.x ∧
    thinPlayer.x < thinPlatform.x + thinPlatform.w ∧
    (thinPlayer.update ⟨[thinPlatform]⟩).y = 3 / 8 ∧
    (thinPlayer.update ⟨[thinPlatform]⟩).y ≠ thinPlayer.y ∧
    (thinPlayer.update ⟨[thinPlatform]⟩).vy ≠ thinPlayer.vy ∧
    (thinPlayer.update ⟨[thinPlatform]⟩).canJump = false := by
  have hc : thinPlatform.toRect.colliding thinPlayer.integrate.toRect = false := by
    rw [integrate_eq]
    norm_num [Rect.colliding, thinPlayer, thinPlatform, Platform.new, MovableRect.new]
  rw [update_single_of_not_colliding thinPlayer thinPlatform hc, integrate_eq]
  refine ⟨rfl, rfl, rfl, rfl, ?_, ?_, ?_, ?_, ?_, ?_, rfl⟩ <;>
    norm_num [thinPlayer, thinPlatform, Platform.new, MovableRect.new]

/-! ## The idle game -/

/-- With no key pressed `handleInput` does nothing. -/
theorem handleInput_none (pl : Player) : pl.handleInput Keys.none = pl := by
  simp [Player.handleInput, Keys.none]

/-- A platform as built by its constructor has zero velocity: its `update` moves it nowhere. -/
theorem platform_update_new (x y w h : ℚ) :
    (Platform.new x y w h).update = Platform.new x y w h := by
  simp [Platform.update, Platform.new, MovableRect.new, MovableRect.move,
    MovableRect.saveOldPosition, MovableRect.translate, Rect.translate]

/-- `Map.update` leaves the default map as the constructor built it. -/
theorem defaultMap_update : Game.new.currentMap.update = Game.new.currentMap := by
  simp [Map.update, Game.new, platform_update_new]

/-- Of the seven default platforms only the fourth, `ledge`, collides with a
50 by 50 rectangle at `(200, 200.5)`. -/
theorem defaultMap_collisions :
    Game.new.currentMap.platforms.filter
      (fun p => p.toRect.colliding ⟨200, 401 / 2, 50, 50⟩) = [ledge] := by
  simp only [Game.new, List.filter]
  norm_num [Rect.colliding, Platform.new, MovableRect.new, ledge]

/-- The first tick of the freshly built player puts it on `ledge`. -/
theorem update_new_default :
    (Player.new 200 200).update Game.new.currentMap = standingPlayer := by
  rw [update_eq_foldl, integrate_eq]
  have hrect : (⟨200, 401 / 2, 50, 50⟩ : Rect) =
      ⟨(Player.new 200 200).x + (Player.new 200 200).vx * (19 / 20),
       (Player.new 200 200).y + ((Player.new 200 200).vy + 1 / 2),
       (Player.new 200 200).w, (Player.new 200 200).h⟩ := by
    norm_num [Player.new, MovableRect.new]
  rw [← hrect, defaultMap_collisions]
  simp only [List.foldl]
  rw [handleCollision_of_above _ ledge
    (by norm_num [Player.new, MovableRect.new, ledge, Platform.new])
    (by norm_num [Player.new, MovableRect.new, ledge, Platform.new])
    (by norm_num [Player.new, MovableRect.new, ledge, Platform.new])]
  norm_num [standingPlayer, Player.new, MovableRect.new, ledge, Platform.new]

/-- Every later tick leaves the standing player where it is. -/
theorem update_standing_default :
    standingPlayer.update Game.new.currentMap = standingPlayer := by
  rw [update_eq_foldl, integrate_eq]
  have hrect : (⟨200, 401 / 2, 50, 50⟩ : Rect) =
      ⟨standingPlayer.x + standingPlayer.vx * (19 / 20),
       standingPlayer.y + (standingPlayer.vy + 1 / 2),
       standingPlayer.w, standingPlayer.h⟩ := by
    norm_num [standingPlayer, Player.new, MovableRect.new]
  rw [← hrect, defaultMap_collisions]
  simp only [List.foldl]
  rw [handleCollision_of_above _ ledge
    (by norm_num [standingPlayer, Player.new, MovableRect.new, ledge, Platform.new])
    (by norm_num [standingPlayer, Player.new, MovableRect.new, ledge, Platform.new])
    (by norm_num [standingPlayer, Player.new, MovableRect.new, ledge, Platform.new])]
  norm_num [standingPlayer, Player.new, MovableRect.new, ledge, Platform.new]

/-- The first tick of the idle game. -/
theorem game_update_new : Game.new.update = Game.rested := by
  have hp : Game.new.player = Player.new 200 200 := rfl
  have hk : Game.new.keys = Keys.none := rfl
  simp only [Game.update, defaultMap_update, hp, hk, handleInput_none, update_new_default]
  rfl

/-- The rested game is a fixed point of the idle tick. -/
theorem game_update_rested : Game.rested.update = Game.rested := by
  have hp : Game.rested.player = standingPlayer := rfl
  have hk : Game.rested.keys = Keys.none := rfl
  have hm : Game.rested.currentMap = Game.new.currentMap := rfl
  simp only [Game.update, hm, defaultMap_update, hp, hk, handleInput_none,
    update_standing_default]
  rfl

/-- After at least one idle tick the game is the rested game. -/
theorem game_iterate_rested (n : Nat) : Game.update^[n + 1] Game.new = Game.rested := by
  induction n with
  | zero => exact game_update_new
  | succ k ih =>
      rw [Function.iterate_succ_apply', ih]
      exact game_update_rested

/-- C4: from the state built by the `Game` constructor, with no key pressed,
after `n >= 1` calls of `Game.update` the player has `x = 200`, `y = 200`,
`vx = 0`, `vy = 0` and `canJump = true`. -/
theorem game_idle_player_rests (n : Nat) (hn : 1 ≤ n) :
    (Game.update^[n] Game.new).keys = Keys.none ∧
    (Game.update^[n] Game.new).player.x = 200 ∧
    (Game.update^[n] Game.new).player.y = 200 ∧
    (Game.update^[n] Game.new).player.vx = 0 ∧
    (Game.update^[n] Game.new).player.vy = 0 ∧
    (Game.update^[n] Game.new).player.canJump = true := by
  obtain ⟨k, rfl⟩ : ∃ k, n = k + 1 := ⟨n - 1, by omega⟩
  rw [game_iterate_rested k]
  refine ⟨rfl, ?_, ?_, ?_, ?_, rfl⟩ <;>
    simp [Game.rested, standingPlayer, Player.new, MovableRect.new]

/-- C4 (witness): three idle ticks. -/
theorem game_idle_player_rests_witness :
    1 ≤ 3 ∧
    (Game.update^[3] Game.new).player.x = 200 ∧
    (Game.update^[3] Game.new).player.y = 200 ∧
    (Game.update^[3] Game.new).player.vx = 0 ∧
    (Game.update^[3] Game.new).player.vy = 0 ∧
    (Game.update^[3] Game.new).player.canJump = true :=
  ⟨by decide, (game_idle_player_rests 3 (by decide)).2⟩

/-! ## Guards and bodies of `handleCollision` -/

/-- `handleCollision` is the body of the branch that its guards select. -/
theorem handleCollision_eq_resolve (z : Player) (p : Platform) :
    z.handleCollision p = z.resolve p (z.collisionSide p) := by
  unfold Player.handleCollision Player.collisionSide
  split_ifs <;> rfl

/-- No branch body writes `lastX`, `lastY`, `w` or `h`. -/
theorem resolve_frame (z : Player) (p : Platform) (s : Side) :
    (z.resolve p s).lastX = z.lastX ∧ (z.resolve p s).lastY = z.lastY ∧
    (z.resolve p s).w = z.w ∧ (z.resolve p s).h = z.h := by
  cases s <;> exact ⟨rfl, rfl, rfl, rfl⟩

/-- `handleCollision` never writes `lastX`, `lastY`, `w` or `h`. -/
theorem handleCollision_frame (z : Player) (p : Platform) :
    (z.handleCollision p).lastX = z.lastX ∧ (z.handleCollision p).lastY = z.lastY ∧
    (z.handleCollision p).w = z.w ∧ (z.handleCollision p).h = z.h := by
  rw [handleCollision_eq_resolve]
  exact resolve_frame z p _

/-- The branch entered is a function of the pre-move data `lastX`, `lastY`, `w`, `h`
of the player and of the platform. -/
theorem collisionSide_congr (z1 z2 : Player) (p1 p2 : Platform)
    (hlx : z1.lastX = z2.lastX) (hly : z1.lastY = z2.lastY)
    (hw : z1.w = z2.w) (hh : z1.h = z2.h)
    (hplx : p1.lastX = p2.lastX) (hply : p1.lastY = p2.lastY)
    (hpw : p1.w = p2.w) (hph : p1.h = p2.h) :
    z1.collisionSide p1 = z2.collisionSide p2 := by
  unfold Player.collisionSide
  rw [hlx, hly, hw, hh, hplx, hply, hpw, hph]

/-- Resolving a collision does not change the branch of any later collision. -/
theorem collisionSide_handleCollision (z : Player) (p q : Platform) :
    (z.handleCollision p).collisionSide q = z.collisionSide q := by
  obtain ⟨h1, h2, h3, h4⟩ := handleCollision_frame z p
  exact collisionSide_congr _ _ q q h1 h2 h3 h4 rfl rfl rfl rfl

/-- A run of collision resolutions never writes `lastX`, `lastY`, `w` or `h`. -/
theorem foldl_handleCollision_frame (L : List Platform) :
    ∀ z : Player,
      (L.foldl Player.handleCollision z).lastX = z.lastX ∧
      (L.foldl Player.handleCollision z).lastY = z.lastY ∧
      (L.foldl Player.handleCollision z).w = z.w ∧
      (L.foldl Player.handleCollision z).h = z.h := by
  induction L with
  | nil => intro z; exact ⟨rfl, rfl, rfl, rfl⟩
  | cons p L ih =>
      intro z
      obtain ⟨h1, h2, h3, h4⟩ := ih (z.handleCollision p)
      obtain ⟨g1, g2, g3, g4⟩ := handleCollision_frame z p
      simp only [List.foldl]
      exact ⟨h1.trans g1, h2.trans g2, h3.trans g3, h4.trans g4⟩

/-! ## Claims about the snapshot and the branch choice -/

/-- C11: after `update`, `lastX` and `lastY` are the player's `x` and `y` at the start
of that update, whatever the map and however many collisions were resolved:
`move` takes the snapshot once and `handleCollision` never writes `lastX` or `lastY`. -/
theorem update_snapshot (pl : Player) (m : Map) :
    (pl.update m).lastX = pl.x ∧ (pl.update m).lastY = pl.y ∧
    (pl.integrate.lastX = pl.x ∧ pl.integrate.lastY = pl.y) ∧
    (∀ (z : Player) (p : Platform),
      (z.handleCollision p).lastX = z.lastX ∧ (z.handleCollision p).lastY = z.lastY) := by
  have hint : pl.integrate.lastX = pl.x ∧ pl.integrate.lastY = pl.y := by
    rw [integrate_eq]
    exact ⟨rfl, rfl⟩
  obtain ⟨h1, h2, -, -⟩ := foldl_handleCollision_frame
    (m.platforms.filter (fun p => p.toRect.colliding pl.integrate.toRect)) pl.integrate
  rw [update_eq_foldl]
  refine ⟨h1.trans hint.1, h2.trans hint.2, hint, ?_⟩
  intro z p
  exact ⟨(handleCollision_frame z p).1, (handleCollision_frame z p).2.1⟩

/-- C18: two players that agree on `lastX`, `lastY`, `w`, `h` and two platforms
that agree on `lastX`, `lastY`, `w`, `h` make `handleCollision` take the same
branch, whatever their `x`, `y`, `vx`, `vy` and `canJump` are; the branch is the
one whose body `handleCollision` executes. -/
theorem handleCollision_side_pre_move_only (z1 z2 : Player) (p1 p2 : Platform)
    (hlx : z1.lastX = z2.lastX) (hly : z1.lastY = z2.lastY)
    (hw : z1.w = z2.w) (hh : z1.h = z2.h)
    (hplx : p1.lastX = p2.lastX) (hply : p1.lastY = p2.lastY)
    (hpw : p1.w = p2.w) (hph : p1.h = p2.h) :
    z1.collisionSide p1 = z2.collisionSide p2 ∧
    z1.handleCollision p1 = z1.resolve p1 (z1.collisionSide p1) ∧
    z2.handleCollision p2 = z2.resolve p2 (z1.collisionSide p1) := by
  have hside := collisionSide_congr z1 z2 p1 p2 hlx hly hw hh hplx hply hpw hph
  refine ⟨hside, handleCollision_eq_resolve z1 p1, ?_⟩
  rw [hside]
  exact handleCollision_eq_resolve z2 p2

/-- C18 (witness): `fallingPlayer` and `standingPlayer` have the same pre-move data
and differ in velocity and `canJump`; against `ledge` both take the top branch. -/
theorem handleCollision_side_pre_move_only_witness :
    fallingPlayer.vy ≠ standingPlayer.vy ∧
    fallingPlayer.canJump ≠ standingPlayer.canJump ∧
    fallingPlayer.collisionSide ledge = Side.top ∧
    standingPlayer.collisionSide ledge = Side.top := by
  have h := handleCollision_side_pre_move_only fallingPlayer standingPlayer ledge ledge
    rfl rfl rfl rfl rfl rfl rfl rfl
  have htop : fallingPlayer.collisionSide ledge = Side.top := by
    norm_num [Player.collisionSide, fallingPlayer, ledge, Platform.new, MovableRect.new]
  refine ⟨?_, ?_, htop, ?_⟩
  · norm_num [fallingPlayer, standingPlayer, Player.new, MovableRect.new]
  · simp [fallingPlayer, standingPlayer]
  · rw [← h.1]
    exact htop

/-- Over exact rationals: when the pre-move rectangles of player and platform do not strictly
overlap, `handleCollision` enters one of its four branches: it writes exactly one
of `x`, `y` (with the velocity of that axis), the player ends exactly flush
against the platform edge on that axis, and so the player's rectangle and the
platform's current rectangle have disjoint interiors.  The positivity of
the sizes is not used. -/
theorem handleCollision_separates (z : Player) (p : Platform)
    (_hzw : 0 < z.w) (_hzh : 0 < z.h) (_hpw : 0 < p.w) (_hph : 0 < p.h)
    (hpre : ¬ (z.lastX < p.lastX + p.w ∧ p.lastX < z.lastX + z.w ∧
               z.lastY < p.lastY + p.h ∧ p.lastY < z.lastY + z.h)) :
    ((z.handleCollision p).x + (z.handleCollision p).w ≤ p.x ∨
      (z.handleCollision p).x ≥ p.x + p.w ∨
      (z.handleCollision p).y + (z.handleCollision p).h ≤ p.y ∨
      (z.handleCollision p).y ≥ p.y + p.h) ∧
    ((z.handleCollision p = { z with x := p.x - z.w, vx := 0 } ∧
        (z.handleCollision p).x + (z.handleCollision p).w = p.x) ∨
      (z.handleCollision p = { z with x := p.x + p.w, vx := 0 } ∧
        (z.handleCollision p).x = p.x + p.w) ∨
      (z.handleCollision p = { z with y := p.y - z.h, vy := 0, canJump := true } ∧
        (z.handleCollision p).y + (z.handleCollision p).h = p.y) ∨
      (z.handleCollision p = { z with y := p.y + p.h, vy := 0 } ∧
        (z.handleCollision p).y = p.y + p.h)) := by
  by_cases h1 : z.lastX + z.w ≤ p.lastX
  · rw [handleCollision_of_left z p h1]
    have hflush : (p.x - z.w) + z.w = p.x := by ring
    exact ⟨Or.inl (le_of_eq hflush), Or.inl ⟨rfl, hflush⟩⟩
  · by_cases h2 : z.lastX ≥ p.lastX + p.w
    · rw [handleCollision_of_right z p h1 h2]
      exact ⟨Or.inr (Or.inl (le_refl _)), Or.inr (Or.inl ⟨rfl, rfl⟩)⟩
    · by_cases h3 : z.lastY + z.h ≤ p.lastY
      · rw [handleCollision_of_above z p h1 h2 h3]
        have hflush : (p.y - z.h) + z.h = p.y := by ring
        exact ⟨Or.inr (Or.inr (Or.inl (le_of_eq hflush))),
          Or.inr (Or.inr (Or.inl ⟨rfl, hflush⟩))⟩
      · have h4 : z.lastY ≥ p.lastY + p.h := by
          by_contra h4
          exact hpre ⟨not_le.mp h2, not_le.mp h1, not_le.mp h4, not_le.mp h3⟩
        rw [handleCollision_of_not_above z p h1 h2 h3, if_pos h4]
        exact ⟨Or.inr (Or.inr (Or.inr (le_refl _))), Or.inr (Or.inr (Or.inr ⟨rfl, rfl⟩))⟩

/-- Over exact rationals, `overshootPlayer` against `ledge` ends flush on the left, at
`x = 100` with `y` untouched. -/
theorem handleCollision_separates_witness :
    ¬ (overshootPlayer.lastX < ledge.lastX + ledge.w ∧
       ledge.lastX < overshootPlayer.lastX + overshootPlayer.w ∧
       overshootPlayer.lastY < ledge.lastY + ledge.h ∧
       ledge.lastY < overshootPlayer.lastY + overshootPlayer.h) ∧
    ((overshootPlayer.handleCollision ledge).x + (overshootPlayer.handleCollision ledge).w
        ≤ ledge.x ∨
      (overshootPlayer.handleCollision ledge).x ≥ ledge.x + ledge.w ∨
      (overshootPlayer.handleCollision ledge).y + (overshootPlayer.handleCollision ledge).h
        ≤ ledge.y ∨
      (overshootPlayer.handleCollision ledge).y ≥ ledge.y + ledge.h) := by
  have hpre : ¬ (overshootPlayer.lastX < ledge.lastX + ledge.w ∧
       ledge.lastX < overshootPlayer.lastX + overshootPlayer.w ∧
       overshootPlayer.lastY < ledge.lastY + ledge.h ∧
       ledge.lastY < overshootPlayer.lastY + overshootPlayer.h) := by
    norm_num [overshootPlayer, ledge, Platform.new, MovableRect.new]
  exact ⟨hpre, (handleCollision_separates overshootPlayer ledge
    (by norm_num [overshootPlayer]) (by norm_num [overshootPlayer])
    (by norm_num [ledge, Platform.new, MovableRect.new])
    (by norm_num [ledge, Platform.new, MovableRect.new]) hpre).1⟩

/-! ## Claims about `inflate`, friction and gravity -/

/-- Over exact rationals: `inflate(dw, dh)` yields `x - dw`, `y - dh`, `w + 2*dw`, `h + 2*dh`, so the
centre `(x + w/2, y + h/2)` is unchanged, and `inflate(-dw, -dh)` undoes it. -/
theorem inflate_about_centre (r : Rect) (dw dh : ℚ) :
    (r.inflate dw dh).x = r.x - dw ∧
    (r.inflate dw dh).y = r.y - dh ∧
    (r.inflate dw dh).w = r.w + 2 * dw ∧
    (r.inflate dw dh).h = r.h + 2 * dh ∧
    (r.inflate dw dh).x + (r.inflate dw dh).w / 2 = r.x + r.w / 2 ∧
    (r.inflate dw dh).y + (r.inflate dw dh).h / 2 = r.y + r.h / 2 ∧
    (r.inflate dw dh).inflate (-dw) (-dh) = r := by
  obtain ⟨x, y, w, h⟩ := r
  simp only [Rect.inflate, Rect.translate, Rect.grow]
  refine ⟨by ring, by ring, trivial, trivial, by ring, by ring, ?_⟩
  simp only [Rect.mk.injEq]
  refine ⟨by ring, by ring, by ring, by ring⟩

/-- Friction applied `n` times multiplies `vx` by `0.95^n` and touches nothing else. -/
theorem applyFriction_iterate_eq (pl : Player) (n : Nat) :
    Player.applyFriction^[n] pl = { pl with vx := pl.vx * (19 / 20) ^ n } := by
  induction n with
  | zero => simp
  | succ k ih =>
      rw [Function.iterate_succ_apply', ih]
      simp only [Player.applyFriction, Player.frictionMultiplier]
      rw [pow_succ, mul_assoc]

/-- Over exact rationals: after `n` applications of `applyFriction`, `vx = vx0 * 0.95^n` and every other
field is unchanged; `vx0 = 10` gives `9.5` after one application; and for
`vx0 != 0` the value is never `0` while its magnitude strictly decreases. -/
theorem applyFriction_decay (pl : Player) (n : Nat) :
    (Player.applyFriction^[n] pl).vx = pl.vx * (19 / 20) ^ n ∧
    Player.applyFriction^[n] pl = { pl with vx := pl.vx * (19 / 20) ^ n } ∧
    (pl.vx = 10 → pl.applyFriction.vx = 19 / 2) ∧
    (pl.vx ≠ 0 →
      (Player.applyFriction^[n] pl).vx ≠ 0 ∧
      |(Player.applyFriction^[n + 1] pl).vx| < |(Player.applyFriction^[n] pl).vx|) := by
  refine ⟨?_, applyFriction_iterate_eq pl n, ?_, ?_⟩
  · rw [applyFriction_iterate_eq]
  · intro h10
    simp only [Player.applyFriction, Player.frictionMultiplier, h10]
    norm_num
  · intro hne
    rw [applyFriction_iterate_eq, applyFriction_iterate_eq]
    have hpow : (0 : ℚ) < (19 / 20) ^ n := by positivity
    have hpos : 0 < |pl.vx * (19 / 20) ^ n| :=
      abs_pos.mpr (mul_ne_zero hne (ne_of_gt hpow))
    refine ⟨mul_ne_zero hne (ne_of_gt hpow), ?_⟩
    show |pl.vx * (19 / 20) ^ (n + 1)| < |pl.vx * (19 / 20) ^ n|
    have hstep : pl.vx * (19 / 20) ^ (n + 1) = (pl.vx * (19 / 20) ^ n) * (19 / 20) := by
      rw [pow_succ, mul_assoc]
    rw [hstep, abs_mul]
    have h95 : |(19 / 20 : ℚ)| = 19 / 20 := abs_of_pos (by norm_num)
    rw [h95]
    linarith

/-- Over exact rationals, `slidingPlayer`, with `vx = 10`, has `vx = 9.5` after one
application and `vx = 9.025` after two, which is not `0` and smaller. -/
theorem applyFriction_decay_witness :
    slidingPlayer.vx = 10 ∧ slidingPlayer.vx ≠ 0 ∧
    slidingPlayer.applyFriction.vx = 19 / 2 ∧
    (Player.applyFriction^[2] slidingPlayer).vx = 361 / 40 ∧
    (Player.applyFriction^[2] slidingPlayer).vx ≠ 0 ∧
    |(Player.applyFriction^[3] slidingPlayer).vx| <
      |(Player.applyFriction^[2] slidingPlayer).vx| := by
  have h10 : slidingPlayer.vx = 10 := rfl
  have hne : slidingPlayer.vx ≠ 0 := by
    rw [h10]
    norm_num
  obtain ⟨hvx, -, hone, hdec⟩ := applyFriction_decay slidingPlayer 2
  refine ⟨h10, hne, hone h10, ?_, (hdec hne).1, (hdec hne).2⟩
  rw [hvx, h10]
  norm_num

/-- One more tick is one more `update`. -/
theorem ticks_succ (pl : Player) (m : Map) (n : Nat) :
    pl.ticks m (n + 1) = (pl.ticks m n).update m := by
  simp only [Player.ticks]
  rw [Function.iterate_succ_apply']

/-- A rectangle whose lower edge is above `y = 250` collides with no platform of
the default map. -/
theorem defaultMap_free_above (r : Rect) (hr : r.y + r.h < 250) :
    ∀ p ∈ Game.new.currentMap.platforms, p.toRect.colliding r = false := by
  intro p hp
  simp only [Game.new, List.mem_cons, List.mem_singleton, List.not_mem_nil, or_false] at hp
  have hsep : ∀ q : Platform, r.y + r.h < q.y → q.toRect.colliding r = false := by
    intro q hq
    simp only [Rect.colliding, Bool.not_eq_false', Bool.or_eq_true, decide_eq_true_eq]
    exact Or.inr hq
  rcases hp with h | h | h | h | h | h | h <;> subst h <;> apply hsep <;>
    norm_num [Platform.new, MovableRect.new] <;> linarith

/-- C13: after `n` ticks of `update` during which no platform collides with the
player's post-move rectangle, `vy = vy0 + 0.5 * n`, so `vy = 0.5 * n` from
`vy0 = 0`; on the empty map this holds for every `n` with no condition. -/
theorem update_gravity_accumulates (pl : Player) (m : Map) (n : Nat)
    (hfree : ∀ k < n, ∀ p ∈ m.platforms,
      p.toRect.colliding (pl.ticks m k).applyFriction.applyGravity.move.toRect = false) :
    (pl.ticks m n).vy = pl.vy + (1 / 2) * n ∧
    (pl.vy = 0 → (pl.ticks m n).vy = (1 / 2) * n) ∧
    (pl.ticks ⟨[]⟩ n).vy = pl.vy + (1 / 2) * n := by
  have hgen : ∀ (m0 : Map) (j : Nat),
      (∀ k < j, ∀ p ∈ m0.platforms,
        p.toRect.colliding (pl.ticks m0 k).integrate.toRect = false) →
      (pl.ticks m0 j).vy = pl.vy + (1 / 2) * j := by
    intro m0 j
    induction j with
    | zero =>
        intro _
        simp [Player.ticks]
    | succ j ih =>
        intro hj
        have hprev := ih (fun k hk => hj k (Nat.lt_succ_of_lt hk))
        rw [ticks_succ, update_of_no_collision _ m0 (hj j (Nat.lt_succ_self j)), integrate_eq]
        show (pl.ticks m0 j).vy + 1 / 2 = pl.vy + 1 / 2 * ((j + 1 : ℕ) : ℚ)
        rw [hprev]
        push_cast
        ring
  have hmain := hgen m n hfree
  refine ⟨hmain, ?_, ?_⟩
  · intro h0
    rw [hmain, h0, zero_add]
  · apply hgen
    intro k _ p hp
    simp at hp

/-- C13 (witness): `driftingPlayer`, starting with `vy = -1`, stays clear of the
default map for two ticks and ends them with `vy = 0`. -/
theorem update_gravity_accumulates_witness :
    (∀ k < 2, ∀ p ∈ Game.new.currentMap.platforms,
      p.toRect.colliding
        (driftingPlayer.ticks Game.new.currentMap k).applyFriction.applyGravity.move.toRect
        = false) ∧
    (driftingPlayer.ticks Game.new.currentMap 2).vy = 0 := by
  have h0 : driftingPlayer.ticks Game.new.currentMap 0 = driftingPlayer := rfl
  have hfree0 : ∀ p ∈ Game.new.currentMap.platforms,
      p.toRect.colliding driftingPlayer.integrate.toRect = false := by
    apply defaultMap_free_above
    rw [integrate_eq]
    norm_num [driftingPlayer]
  have h1 : driftingPlayer.ticks Game.new.currentMap 1 = driftingPlayer.integrate := by
    rw [ticks_succ, h0, update_of_no_collision _ _ hfree0]
  have hfree : ∀ k < 2, ∀ p ∈ Game.new.currentMap.platforms,
      p.toRect.colliding
        (driftingPlayer.ticks Game.new.currentMap k).applyFriction.applyGravity.move.toRect
        = false := by
    intro k hk
    interval_cases k
    · rw [h0]
      exact hfree0
    · rw [h1]
      apply defaultMap_free_above
      rw [← integrate_toRect, integrate_eq, integrate_eq]
      norm_num [driftingPlayer]
  refine ⟨hfree, ?_⟩
  rw [(update_gravity_accumulates driftingPlayer Game.new.currentMap 2 hfree).1]
  norm_num [driftingPlayer]

/-! ## Claims about the map during the player's tick -/

/-- C16: `update` hands back the map exactly as it received it: the platform list
is the same list, so every platform keeps its `x`, `y`, `w`, `h`, `vx`, `vy`,
`lastX` and `lastY`; the player it produces is the one of `Player.update`; and
after a whole `Game.update` the map is what `Map.update` alone made of it,
whatever the player and the keys were. -/
theorem update_leaves_map (pl : Player) (m : Map) :
    (pl.updateWorld m).2 = m ∧
    (pl.updateWorld m).2.platforms = m.platforms ∧
    (pl.updateWorld m).1 = pl.update m ∧
    (∀ g : Game, g.update.currentMap = g.currentMap.update) := by
  have hmap : (pl.updateWorld m).2.platforms = m.platforms := by
    simp only [Player.updateWorld]
    rw [getCollisionsRun_eq]
  refine ⟨?_, hmap, rfl, fun g => rfl⟩
  obtain ⟨ps⟩ := m
  simp only [Player.updateWorld]
  rw [getCollisionsRun_eq]

/-! ## What a run of collision resolutions does to velocity and `canJump` -/

/-- One resolution sets `canJump` exactly in the top branch and never clears it. -/
theorem handleCollision_canJump (z : Player) (p : Platform) :
    (z.handleCollision p).canJump = (z.canJump || decide (z.collisionSide p = Side.top)) := by
  rw [handleCollision_eq_resolve]
  cases h : z.collisionSide p <;> simp [Player.resolve]

/-- One resolution zeroes `vx` exactly in the two horizontal branches. -/
theorem handleCollision_vx (z : Player) (p : Platform) :
    (z.handleCollision p).vx = if (z.collisionSide p).horizontal then 0 else z.vx := by
  rw [handleCollision_eq_resolve]
  cases h : z.collisionSide p <;> simp [Player.resolve, Side.horizontal]

/-- One resolution zeroes `vy` exactly in the two vertical branches. -/
theorem handleCollision_vy (z : Player) (p : Platform) :
    (z.handleCollision p).vy = if (z.collisionSide p).vertical then 0 else z.vy := by
  rw [handleCollision_eq_resolve]
  cases h : z.collisionSide p <;> simp [Player.resolve, Side.vertical]

/-- After a run of resolutions `canJump` is set iff it was set or some platform of
the run was resolved in the top branch. -/
theorem foldl_handleCollision_canJump (L : List Platform) :
    ∀ z : Player,
      (L.foldl Player.handleCollision z).canJump =
        (z.canJump || L.any (fun p => decide (z.collisionSide p = Side.top))) := by
  induction L with
  | nil => intro z; simp
  | cons p L ih =>
      intro z
      simp only [List.foldl, List.any_cons]
      rw [ih (z.handleCollision p), handleCollision_canJump]
      simp only [collisionSide_handleCollision, Bool.or_assoc]

/-- After a run of resolutions `vx` is `0` iff some platform of the run was
resolved horizontally, and untouched otherwise. -/
theorem foldl_handleCollision_vx (L : List Platform) :
    ∀ z : Player,
      (L.foldl Player.handleCollision z).vx =
        if L.any (fun p => (z.collisionSide p).horizontal) then 0 else z.vx := by
  induction L with
  | nil => intro z; simp
  | cons p L ih =>
      intro z
      simp only [List.foldl, List.any_cons]
      rw [ih (z.handleCollision p), handleCollision_vx]
      simp only [collisionSide_handleCollision]
      by_cases ha : (z.collisionSide p).horizontal = true <;>
        by_cases hb : L.any (fun q => (z.collisionSide q).horizontal) = true <;>
        simp [ha, hb]

/-- After a run of resolutions `vy` is `0` iff some platform of the run was
resolved vertically, and untouched otherwise. -/
theorem foldl_handleCollision_vy (L : List Platform) :
    ∀ z : Player,
      (L.foldl Player.handleCollision z).vy =
        if L.any (fun p => (z.collisionSide p).vertical) then 0 else z.vy := by
  induction L with
  | nil => intro z; simp
  | cons p L ih =>
      intro z
      simp only [List.foldl, List.any_cons]
      rw [ih (z.handleCollision p), handleCollision_vy]
      simp only [collisionSide_handleCollision]
      by_cases ha : (z.collisionSide p).vertical = true <;>
        by_cases hb : L.any (fun q => (z.collisionSide q).vertical) = true <;>
        simp [ha, hb]

/-- The top branch is entered iff the first two guards fail and the third holds. -/
theorem collisionSide_eq_top_iff (z : Player) (p : Platform) :
    z.collisionSide p = Side.top ↔
      ¬ z.lastX + z.w ≤ p.lastX ∧ ¬ z.lastX ≥ p.lastX + p.w ∧ z.lastY + z.h ≤ p.lastY := by
  unfold Player.collisionSide
  split_ifs <;> simp_all

/-- Whether some element satisfies a test does not depend on the order of the list. -/
theorem any_eq_of_perm {L1 L2 : List Platform} (hperm : L1.Perm L2) (f : Platform → Bool) :
    L1.any f = L2.any f := by
  rw [List.any_eq, List.any_eq]
  congr 1
  apply propext
  constructor
  · rintro ⟨x, hx, hf⟩
    exact ⟨x, hperm.mem_iff.mp hx, hf⟩
  · rintro ⟨x, hx, hf⟩
    exact ⟨x, hperm.mem_iff.mpr hx, hf⟩

/-- C12: `canJump` after `update` is true iff some platform of the map collides with
the player's post-move rectangle and is resolved as a top landing, the guards
being evaluated on the player's pre-move position; it does not depend on the
value of `canJump` before the update. -/
theorem update_canJump_iff (pl : Player) (m : Map) :
    ((pl.update m).canJump = true ↔
      ∃ p ∈ m.platforms,
        p.toRect.colliding pl.applyFriction.applyGravity.move.toRect = true ∧
        ¬ pl.x + pl.w ≤ p.lastX ∧ ¬ pl.x ≥ p.lastX + p.w ∧ pl.y + pl.h ≤ p.lastY) ∧
    (∀ b : Bool, (({ pl with canJump := b } : Player).update m).canJump =
      (pl.update m).canJump) := by
  have key : ∀ q : Player, (q.update m).canJump = true ↔
      ∃ p ∈ m.platforms,
        p.toRect.colliding q.integrate.toRect = true ∧
        ¬ q.x + q.w ≤ p.lastX ∧ ¬ q.x ≥ p.lastX + p.w ∧ q.y + q.h ≤ p.lastY := by
    intro q
    rw [update_eq_foldl, foldl_handleCollision_canJump]
    have hcj : q.integrate.canJump = false := rfl
    rw [hcj, Bool.false_or, List.any_eq_true]
    constructor
    · rintro ⟨p, hp, hside⟩
      rw [List.mem_filter] at hp
      have htop := (collisionSide_eq_top_iff q.integrate p).mp (of_decide_eq_true hside)
      rw [integrate_eq] at htop
      exact ⟨p, hp.1, hp.2, htop⟩
    · rintro ⟨p, hp, hc, htop⟩
      refine ⟨p, List.mem_filter.mpr ⟨hp, hc⟩, decide_eq_true ?_⟩
      rw [collisionSide_eq_top_iff, integrate_eq]
      exact htop
  refine ⟨key pl, ?_⟩
  intro b
  have h1 := key { pl with canJump := b }
  have h2 := key pl
  have hiff : (({ pl with canJump := b } : Player).update m).canJump = true ↔
      (pl.update m).canJump = true := h1.trans h2.symm
  cases hA : (({ pl with canJump := b } : Player).update m).canJump <;>
    cases hB : (pl.update m).canJump
  · rfl
  · exact absurd (hiff.mpr hB) (by rw [hA]; exact Bool.false_ne_true)
  · exact absurd (hiff.mp hA) (by rw [hB]; exact Bool.false_ne_true)
  · rfl

/-! ## Claims about the order of the platforms -/

/-- The colliding platforms of two maps with permuted platform lists are permuted lists. -/
theorem collisions_perm (m1 m2 : Map) (r : Rect) (hperm : m1.platforms.Perm m2.platforms) :
    (m1.platforms.filter (fun p => p.toRect.colliding r)).Perm
      (m2.platforms.filter (fun p => p.toRect.colliding r)) :=
  hperm.filter _

/-- C20: on two maps whose platform lists are permutations of one another,
`update` yields the same `vx`, `vy`, `canJump`, `lastX` and `lastY`: each
platform's branch depends on fields no resolution writes, and the velocity and
`canJump` writes are the same constants in every branch that makes them. -/
theorem update_perm_velocity (pl : Player) (m1 m2 : Map)
    (hperm : m1.platforms.Perm m2.platforms) :
    (pl.update m1).vx = (pl.update m2).vx ∧
    (pl.update m1).vy = (pl.update m2).vy ∧
    (pl.update m1).canJump = (pl.update m2).canJump ∧
    (pl.update m1).lastX = (pl.update m2).lastX ∧
    (pl.update m1).lastY = (pl.update m2).lastY := by
  have hcol := collisions_perm m1 m2 pl.integrate.toRect hperm
  rw [update_eq_foldl, update_eq_foldl]
  refine ⟨?_, ?_, ?_, ?_, ?_⟩
  · rw [foldl_handleCollision_vx, foldl_handleCollision_vx, any_eq_of_perm hcol]
  · rw [foldl_handleCollision_vy, foldl_handleCollision_vy, any_eq_of_perm hcol]
  · rw [foldl_handleCollision_canJump, foldl_handleCollision_canJump, any_eq_of_perm hcol]
  · rw [(foldl_handleCollision_frame _ pl.integrate).1,
      (foldl_handleCollision_frame _ pl.integrate).1]
  · rw [(foldl_handleCollision_frame _ pl.integrate).2.1,
      (foldl_handleCollision_frame _ pl.integrate).2.1]

/-- C20 (witness): `fallingPlayer` over `ledge` and `lowerLedge` in either order
ends with `vy = 0` and `canJump = true`. -/
theorem update_perm_velocity_witness :
    [ledge, lowerLedge].Perm [lowerLedge, ledge] ∧
    (fallingPlayer.update ⟨[ledge, lowerLedge]⟩).vx =
      (fallingPlayer.update ⟨[lowerLedge, ledge]⟩).vx ∧
    (fallingPlayer.update ⟨[ledge, lowerLedge]⟩).vy =
      (fallingPlayer.update ⟨[lowerLedge, ledge]⟩).vy ∧
    (fallingPlayer.update ⟨[ledge, lowerLedge]⟩).canJump =
      (fallingPlayer.update ⟨[lowerLedge, ledge]⟩).canJump ∧
    (fallingPlayer.update ⟨[ledge, lowerLedge]⟩).lastX =
      (fallingPlayer.update ⟨[lowerLedge, ledge]⟩).lastX ∧
    (fallingPlayer.update ⟨[ledge, lowerLedge]⟩).lastY =
      (fallingPlayer.update ⟨[lowerLedge, ledge]⟩).lastY :=
  ⟨List.Perm.swap _ _ _,
    update_perm_velocity fallingPlayer ⟨[ledge, lowerLedge]⟩ ⟨[lowerLedge, ledge]⟩
      (List.Perm.swap _ _ _)⟩

/-- Both `ledge` and `lowerLedge` collide with `fallingPlayer` after it has moved. -/
theorem falling_collides_both :
    ledge.toRect.colliding fallingPlayer.integrate.toRect = true ∧
    lowerLedge.toRect.colliding fallingPlayer.integrate.toRect = true := by
  rw [integrate_eq]
  constructor <;>
    norm_num [Rect.colliding, fallingPlayer, ledge, lowerLedge, Platform.new, MovableRect.new]

/-- The tick of `fallingPlayer` over two colliding platforms `a`, `b`, the second
below its pre-move position, ends on the one resolved last. -/
theorem falling_update_two (a b : Platform)
    (ha : a.toRect.colliding fallingPlayer.integrate.toRect = true)
    (hb : b.toRect.colliding fallingPlayer.integrate.toRect = true)
    (hbx : b.lastX = 150 ∧ b.w = 350 ∧ 250 ≤ b.lastY) :
    (fallingPlayer.update ⟨[a, b]⟩).y = b.y - 50 := by
  rw [update_eq_foldl]
  simp only [List.filter, ha, hb, List.foldl]
  obtain ⟨f1, f2, f3, f4⟩ := handleCollision_frame fallingPlayer.integrate a
  have hi : fallingPlayer.integrate.lastX = 200 ∧ fallingPlayer.integrate.lastY = 200 ∧
      fallingPlayer.integrate.w = 50 ∧ fallingPlayer.integrate.h = 50 := by
    rw [integrate_eq]
    exact ⟨rfl, rfl, rfl, rfl⟩
  rw [handleCollision_of_above _ b
    (by rw [f1, f3, hi.1, hi.2.2.1, hbx.1]; norm_num)
    (by rw [f1, hi.1, hbx.1, hbx.2.1]; norm_num)
    (by rw [f2, f4, hi.2.1, hi.2.2.2]; linarith [hbx.2.2])]
  show b.y - (fallingPlayer.integrate.handleCollision a).h = b.y - 50
  rw [f4, hi.2.2.2]

/-- C17 (counterexample to the claim as stated): `fallingPlayer` collides in one
tick with `ledge` and with `lowerLedge`, both from above; on the map
`[ledge, lowerLedge]` it ends at `y = 210`, on the permuted map
`[lowerLedge, ledge]` at `y = 200`, so the resulting states differ. -/
theorem update_order_matters :
    [ledge, lowerLedge].Perm [lowerLedge, ledge] ∧
    (fallingPlayer.update ⟨[ledge, lowerLedge]⟩).y = 210 ∧
    (fallingPlayer.update ⟨[lowerLedge, ledge]⟩).y = 200 ∧
    fallingPlayer.update ⟨[ledge, lowerLedge]⟩ ≠ fallingPlayer.update ⟨[lowerLedge, ledge]⟩ := by
  have hl : ledge.lastX = 150 ∧ ledge.w = 350 ∧ (250 : ℚ) ≤ ledge.lastY := by
    norm_num [ledge, Platform.new, MovableRect.new]
  have hll : lowerLedge.lastX = 150 ∧ lowerLedge.w = 350 ∧ (250 : ℚ) ≤ lowerLedge.lastY := by
    norm_num [lowerLedge, Platform.new, MovableRect.new]
  have h1 : (fallingPlayer.update ⟨[ledge, lowerLedge]⟩).y = 210 := by
    rw [falling_update_two ledge lowerLedge falling_collides_both.1 falling_collides_both.2
      hll]
    norm_num [lowerLedge, Platform.new, MovableRect.new]
  have h2 : (fallingPlayer.update ⟨[lowerLedge, ledge]⟩).y = 200 := by
    rw [falling_update_two lowerLedge ledge falling_collides_both.2 falling_collides_both.1
      hl]
    norm_num [ledge, Platform.new, MovableRect.new]
  refine ⟨List.Perm.swap _ _ _, h1, h2, ?_⟩
  intro heq
  rw [heq, h2] at h1
  norm_num at h1

/-- Two resolutions that commute on one player commute on every player with the
same `lastX`, `lastY`, `w` and `h`: the branches are the same, and each body
overwrites fields with values that do not depend on the fields it overwrites. -/
theorem handleCollision_comm_transfer (z0 z : Player) (p q : Platform)
    (hlx : z.lastX = z0.lastX) (hly : z.lastY = z0.lastY)
    (hw : z.w = z0.w) (hh : z.h = z0.h)
    (hcomm : (z0.handleCollision p).handleCollision q =
      (z0.handleCollision q).handleCollision p) :
    (z.handleCollision p).handleCollision q = (z.handleCollision q).handleCollision p := by
  have hsp : z.collisionSide p = z0.collisionSide p :=
    collisionSide_congr z z0 p p hlx hly hw hh rfl rfl rfl rfl
  have hsq : z.collisionSide q = z0.collisionSide q :=
    collisionSide_congr z z0 q q hlx hly hw hh rfl rfl rfl rfl
  rw [handleCollision_eq_resolve (z.handleCollision p) q,
    handleCollision_eq_resolve (z.handleCollision q) p,
    collisionSide_handleCollision, collisionSide_handleCollision,
    handleCollision_eq_resolve z p, handleCollision_eq_resolve z q, hsp, hsq]
  rw [handleCollision_eq_resolve (z0.handleCollision p) q,
    handleCollision_eq_resolve (z0.handleCollision q) p,
    collisionSide_handleCollision, collisionSide_handleCollision,
    handleCollision_eq_resolve z0 p, handleCollision_eq_resolve z0 q] at hcomm
  obtain ⟨⟨⟨x, y, w, h⟩, vx, vy, lx, ly⟩, cj⟩ := z
  obtain ⟨⟨⟨x0, y0, w0, h0⟩, vx0, vy0, lx0, ly0⟩, cj0⟩ := z0
  simp only at hlx hly hw hh
  subst hlx hly hw hh
  generalize Player.collisionSide _ p = sp at hcomm ⊢
  generalize Player.collisionSide _ q = sq at hcomm ⊢
  cases sp <;> cases sq <;> simp_all [Player.resolve]

/-- A run of resolutions that commute pairwise gives the same player in any order. -/
theorem foldl_handleCollision_perm (z0 : Player) {L1 L2 : List Platform}
    (hperm : L1.Perm L2) :
    (∀ p ∈ L1, ∀ q ∈ L1, (z0.handleCollision p).handleCollision q =
      (z0.handleCollision q).handleCollision p) →
    ∀ z : Player, z.lastX = z0.lastX → z.lastY = z0.lastY → z.w = z0.w → z.h = z0.h →
      L1.foldl Player.handleCollision z = L2.foldl Player.handleCollision z := by
  induction hperm with
  | nil => intro _ z _ _ _ _; rfl
  | cons a _ ih =>
      intro hcomm z hlx hly hw hh
      obtain ⟨f1, f2, f3, f4⟩ := handleCollision_frame z a
      simp only [List.foldl]
      exact ih (fun p hp q hq => hcomm p (List.mem_cons_of_mem _ hp) q (List.mem_cons_of_mem _ hq))
        (z.handleCollision a) (f1.trans hlx) (f2.trans hly) (f3.trans hw) (f4.trans hh)
  | swap a b l =>
      intro hcomm z hlx hly hw hh
      simp only [List.foldl]
      rw [handleCollision_comm_transfer z0 z b a hlx hly hw hh
        (hcomm b (List.mem_cons_self _ _) a (List.mem_cons_of_mem _ (List.mem_cons_self _ _)))]
  | trans h12 _ ih1 ih2 =>
      intro hcomm z hlx hly hw hh
      rw [ih1 hcomm z hlx hly hw hh]
      exact ih2 (fun p hp q hq => hcomm p (h12.mem_iff.mpr hp) q (h12.mem_iff.mpr hq))
        z hlx hly hw hh

/-- C17 (as amended): on two maps whose platform lists are permutations of one
another, `update` produces the same player state provided the resolutions of
any two platforms that collide with the post-move rectangle commute on the
integrated player (resolving one then the other gives the same state in either
order), as they do when the two write different axes or snap to the same
coordinate, and in particular when at most one platform collides. -/
theorem update_perm_of_commuting (pl : Player) (m1 m2 : Map)
    (hperm : m1.platforms.Perm m2.platforms)
    (hcomm : ∀ p ∈ m1.platforms, ∀ q ∈ m1.platforms,
      p.toRect.colliding pl.applyFriction.applyGravity.move.toRect = true →
      q.toRect.colliding pl.applyFriction.applyGravity.move.toRect = true →
      (pl.integrate.handleCollision p).handleCollision q =
        (pl.integrate.handleCollision q).handleCollision p) :
    pl.update m1 = pl.update m2 := by
  rw [update_eq_foldl, update_eq_foldl]
  apply foldl_handleCollision_perm pl.integrate
    (collisions_perm m1 m2 pl.integrate.toRect hperm) _ pl.integrate rfl rfl rfl rfl
  intro p hp q hq
  rw [List.mem_filter] at hp hq
  exact hcomm p hp.1 q hq.1 hp.2 hq.2

/-- After its move `runningPlayer` is resolved from above against `ledge` and
from the left against `wall`, and the two resolutions commute. -/
theorem running_resolutions_commute :
    runningPlayer.integrate.collisionSide ledge = Side.top ∧
    runningPlayer.integrate.collisionSide wall = Side.left ∧
    (runningPlayer.integrate.handleCollision ledge).handleCollision wall =
      (runningPlayer.integrate.handleCollision wall).handleCollision ledge := by
  have htop : runningPlayer.integrate.collisionSide ledge = Side.top := by
    rw [integrate_eq]
    norm_num [Player.collisionSide, runningPlayer, ledge, Platform.new, MovableRect.new]
  have hleft : runningPlayer.integrate.collisionSide wall = Side.left := by
    rw [integrate_eq]
    norm_num [Player.collisionSide, runningPlayer, wall, Platform.new, MovableRect.new]
  refine ⟨htop, hleft, ?_⟩
  rw [handleCollision_eq_resolve (runningPlayer.integrate.handleCollision ledge) wall,
    handleCollision_eq_resolve (runningPlayer.integrate.handleCollision wall) ledge,
    collisionSide_handleCollision, collisionSide_handleCollision,
    handleCollision_eq_resolve _ ledge, handleCollision_eq_resolve _ wall, htop, hleft]
  rfl

/-- C17 (witness): `runningPlayer` lands on `ledge` and is stopped by `wall` in the
same tick; the two platforms collide with it, their resolutions commute, and
the tick gives the same state on `[ledge, wall]` and on `[wall, ledge]`. -/
theorem update_perm_of_commuting_witness :
    [ledge, wall].Perm [wall, ledge] ∧
    ledge.toRect.colliding runningPlayer.applyFriction.applyGravity.move.toRect = true ∧
    wall.toRect.colliding runningPlayer.applyFriction.applyGravity.move.toRect = true ∧
    (runningPlayer.integrate.handleCollision ledge).handleCollision wall =
      (runningPlayer.integrate.handleCollision wall).handleCollision ledge ∧
    runningPlayer.update ⟨[ledge, wall]⟩ = runningPlayer.update ⟨[wall, ledge]⟩ := by
  have hperm : [ledge, wall].Perm [wall, ledge] := List.Perm.swap _ _ _
  have hc : ledge.toRect.colliding runningPlayer.applyFriction.applyGravity.move.toRect = true ∧
      wall.toRect.colliding runningPlayer.applyFriction.applyGravity.move.toRect = true := by
    rw [← integrate_toRect, integrate_eq]
    constructor <;>
      norm_num [Rect.colliding, runningPlayer, ledge, wall, Platform.new, MovableRect.new]
  have hlw := running_resolutions_commute.2.2
  refine ⟨hperm, hc.1, hc.2, hlw, ?_⟩
  apply update_perm_of_commuting runningPlayer ⟨[ledge, wall]⟩ ⟨[wall, ledge]⟩ hperm
  intro p hp q hq _ _
  simp only [List.mem_cons, List.mem_singleton, List.not_mem_nil, or_false] at hp hq
  rcases hp with rfl | rfl <;> rcases hq with rfl | rfl
  · rfl
  · exact hlw
  · exact hlw.symm
  · rfl

/-! ## Properties of binary64 rounding -/

theorem roundHalfEven_intCast (k : ℤ) : roundHalfEven (k : ℚ) = k := by
  simp [roundHalfEven]

theorem floor_le_roundHalfEven (r : ℚ) : ⌊r⌋ ≤ roundHalfEven r := by
  unfold roundHalfEven
  split_ifs <;> omega

theorem roundHalfEven_le_floor_succ (r : ℚ) : roundHalfEven r ≤ ⌊r⌋ + 1 := by
  unfold roundHalfEven
  split_ifs <;> omega

theorem roundHalfEven_mono {r s : ℚ} (h : r ≤ s) : roundHalfEven r ≤ roundHalfEven s := by
  have hfl : ⌊r⌋ ≤ ⌊s⌋ := Int.floor_mono h
  rcases lt_or_eq_of_le hfl with hlt | heq
  · calc roundHalfEven r ≤ ⌊r⌋ + 1 := roundHalfEven_le_floor_succ r
      _ ≤ ⌊s⌋ := hlt
      _ ≤ roundHalfEven s := floor_le_roundHalfEven s
  · unfold roundHalfEven
    rw [heq] at *
    split_ifs <;> first | omega | (exfalso; linarith)


theorem roundHalfEven_le_of_le {r : ℚ} {N : ℤ} (h : r ≤ N) : roundHalfEven r ≤ N := by
  have := roundHalfEven_mono h
  rwa [roundHalfEven_intCast] at this

theorem le_roundHalfEven_of_le {r : ℚ} {N : ℤ} (h : (N : ℚ) ≤ r) : N ≤ roundHalfEven r := by
  have := roundHalfEven_mono h
  rwa [roundHalfEven_intCast] at this

theorem roundHalfEven_eq_of_near {r : ℚ} {m : ℤ} (h : |r - m| < 1 / 2) :
    roundHalfEven r = m := by
  rw [abs_lt] at h
  have hf1 : (⌊r⌋ : ℚ) ≤ r := Int.floor_le r
  have hf2 : r < ⌊r⌋ + 1 := Int.lt_floor_add_one r
  have hcases : ⌊r⌋ = m ∨ ⌊r⌋ = m - 1 := by
    have h1 : m - 1 ≤ ⌊r⌋ := by
      rw [Int.le_floor]
      push_cast
      linarith
    have h2 : ⌊r⌋ ≤ m := by
      have : ⌊r⌋ < m + 1 := by
        rw [Int.floor_lt]
        push_cast
        linarith
      omega
    omega
  unfold roundHalfEven
  rcases hcases with hm | hm
  · have hfq : (⌊r⌋ : ℚ) = m := by exact_mod_cast hm
    rw [if_pos (by rw [hfq]; linarith), hm]
  · have hfq : (⌊r⌋ : ℚ) = m - 1 := by
      rw [hm]
      push_cast
      ring
    rw [if_neg (by rw [hfq]; linarith), if_pos (by rw [hfq]; linarith), hm]
    ring


theorem binade_ge (q : ℚ) : -1022 ≤ binade q := le_max_right _ _

theorem ulp_pos (q : ℚ) : 0 < ulp q := by
  unfold ulp
  positivity

theorem lt_zpow_binade_succ (q : ℚ) : q < 2 ^ (binade q + 1) := by
  have h1 : q < ((2 : ℕ) : ℚ) ^ (Int.log 2 q + 1) := Int.lt_zpow_succ_log_self (by norm_num) q
  have h2 : ((2 : ℕ) : ℚ) ^ (Int.log 2 q + 1) ≤ ((2 : ℕ) : ℚ) ^ (binade q + 1) :=
    zpow_le_zpow_right₀ (by norm_num) (by unfold binade; exact add_le_add_right (le_max_left _ _) 1)
  exact_mod_cast lt_of_lt_of_le h1 h2

theorem zpow_binade_le {q : ℚ} (hq : 0 < q) (h : -1022 < binade q) : 2 ^ binade q ≤ q := by
  have hlog : binade q = Int.log 2 q := by
    unfold binade at h ⊢
    rcases le_total (Int.log 2 q) (-1022) with hle | hle
    · rw [max_eq_right hle] at h
      exact absurd h (lt_irrefl _)
    · exact max_eq_left hle
  rw [hlog]
  exact_mod_cast Int.zpow_log_le_self (b := 2) (r := q) (by norm_num) hq

theorem binade_mono {q r : ℚ} (hq : 0 < q) (h : q ≤ r) : binade q ≤ binade r := by
  unfold binade
  exact max_le_max (Int.log_mono_right hq h) (le_refl _)

theorem binade_eq_of_bounds {q : ℚ} {e : ℤ} (he : -1022 ≤ e) (hlo : 2 ^ e ≤ q)
    (hhi : q < 2 ^ (e + 1)) : binade q = e := by
  have hq : 0 < q := lt_of_lt_of_le (by positivity) hlo
  have h1 : e ≤ Int.log 2 q := by
    rw [← Int.zpow_le_iff_le_log (by norm_num) hq]
    exact_mod_cast hlo
  have h2 : Int.log 2 q < e + 1 := by
    rw [← Int.lt_zpow_iff_log_lt (by norm_num) hq]
    exact_mod_cast hhi
  unfold binade
  rw [max_eq_left (by omega)]
  omega

theorem binade_eq_min {q : ℚ} (hq : 0 < q) (hhi : q < 2 ^ (-1021 : ℤ)) : binade q = -1022 := by
  have h2 : Int.log 2 q < -1021 := by
    rw [← Int.lt_zpow_iff_log_lt (by norm_num) hq]
    exact_mod_cast hhi
  unfold binade
  exact max_eq_right (by omega)

theorem roundAbs_eq_of_near {q : ℚ} {e m : ℤ} (hb : binade q = e)
    (hnear : |q - m * 2 ^ (e - 52)| < 2 ^ (e - 53)) : roundAbs q = m * 2 ^ (e - 52) := by
  have hu : ulp q = 2 ^ (e - 52) := by rw [ulp, hb]
  have hupos : (0 : ℚ) < 2 ^ (e - 52) := by positivity
  unfold roundAbs
  rw [hu]
  congr 1
  norm_cast
  apply roundHalfEven_eq_of_near
  have hsplit : (2 : ℚ) ^ (e - 53) = 2 ^ (e - 52) * (1 / 2) := by
    rw [show e - 53 = (e - 52) + (-1) by ring, zpow_add₀ (by norm_num)]
    norm_num
  have hrew : q / 2 ^ (e - 52) - m = (q - m * 2 ^ (e - 52)) / 2 ^ (e - 52) := by
    field_simp
    ring
  rw [hrew, abs_div, abs_of_pos hupos, div_lt_iff₀ hupos]
  rw [hsplit] at hnear
  linarith


theorem roundAbs_zero : roundAbs 0 = 0 := by
  simp [roundAbs, roundHalfEven]

theorem roundAbs_nonneg {q : ℚ} (hq : 0 ≤ q) : 0 ≤ roundAbs q := by
  unfold roundAbs
  have h0 : (0 : ℤ) ≤ roundHalfEven (q / ulp q) :=
    le_roundHalfEven_of_le (by exact_mod_cast div_nonneg hq (le_of_lt (ulp_pos q)))
  exact mul_nonneg (by exact_mod_cast h0) (le_of_lt (ulp_pos q))

/-- A multiple of the spacing of its own binade is a fixed point. -/
theorem roundAbs_of_grid {y : ℚ} {e n : ℤ} (hb : binade y = e) (hy : y = n * 2 ^ (e - 52)) :
    roundAbs y = y := by
  have h := roundAbs_eq_of_near (q := y) (e := e) (m := n) hb
    (by rw [← hy, sub_self, abs_zero]; positivity)
  rw [h, ← hy]

theorem roundAbs_le_of_le_zpow {q : ℚ} {b : ℤ} (hb : binade q ≤ b)
    (hle : q ≤ 2 ^ b) : roundAbs q ≤ 2 ^ b := by
  obtain ⟨k, hk⟩ : ∃ k : ℕ, (k : ℤ) = b - binade q + 52 :=
    ⟨(b - binade q + 52).toNat, Int.toNat_of_nonneg (by omega)⟩
  have hu := ulp_pos q
  have hdiv : q / ulp q ≤ (((2 : ℤ) ^ k : ℤ) : ℚ) := by
    rw [div_le_iff₀ hu]
    push_cast
    rw [ulp, ← zpow_natCast, hk, ← zpow_add₀ (by norm_num)]
    rw [show b - binade q + 52 + (binade q - 52) = b by ring]
    exact hle
  have hr := roundHalfEven_le_of_le hdiv
  unfold roundAbs
  calc (roundHalfEven (q / ulp q) : ℚ) * ulp q ≤ (((2 : ℤ) ^ k : ℤ) : ℚ) * ulp q :=
        mul_le_mul_of_nonneg_right (by exact_mod_cast hr) (le_of_lt hu)
    _ = 2 ^ b := by
        push_cast
        rw [ulp, ← zpow_natCast, hk, ← zpow_add₀ (by norm_num)]
        rw [show b - binade q + 52 + (binade q - 52) = b by ring]

theorem zpow_binade_le_roundAbs {q : ℚ} (hq : 0 < q) (h : -1022 < binade q) :
    2 ^ binade q ≤ roundAbs q := by
  have hu := ulp_pos q
  have hlo := zpow_binade_le hq h
  have hpow : (((2 : ℤ) ^ 52 : ℤ) : ℚ) * ulp q = 2 ^ binade q := by
    have h52 : (((2 : ℤ) ^ 52 : ℤ) : ℚ) = (2 : ℚ) ^ (52 : ℤ) := by norm_num
    rw [ulp, h52, ← zpow_add₀ (by norm_num)]
    congr 1
    ring
  have hdiv : (((2 : ℤ) ^ 52 : ℤ) : ℚ) ≤ q / ulp q := by
    rw [le_div_iff₀ hu, hpow]
    exact hlo
  have hr := le_roundHalfEven_of_le hdiv
  unfold roundAbs
  rw [← hpow]
  exact mul_le_mul_of_nonneg_right (by exact_mod_cast hr) (le_of_lt hu)

theorem roundAbs_mono {q r : ℚ} (hq : 0 ≤ q) (h : q ≤ r) : roundAbs q ≤ roundAbs r := by
  rcases eq_or_lt_of_le hq with h0 | hpos
  · rw [← h0, roundAbs_zero]
    exact roundAbs_nonneg (le_trans hq h)
  · have hb := binade_mono hpos h
    rcases eq_or_lt_of_le hb with heq | hlt
    · have hu : ulp q = ulp r := by rw [ulp, ulp, heq]
      unfold roundAbs
      rw [hu]
      have hmono : roundHalfEven (q / ulp r) ≤ roundHalfEven (r / ulp r) :=
        roundHalfEven_mono (div_le_div_of_nonneg_right h (le_of_lt (ulp_pos r)))
      exact mul_le_mul_of_nonneg_right (by exact_mod_cast hmono) (le_of_lt (ulp_pos r))
    · have hrpos : 0 < r := lt_of_lt_of_le hpos h
      have hr1 : -1022 < binade r := lt_of_le_of_lt (binade_ge q) hlt
      have hq1 : q ≤ 2 ^ binade r := by
        have h1 := lt_zpow_binade_succ q
        have h2 : (2 : ℚ) ^ (binade q + 1) ≤ 2 ^ binade r :=
          zpow_le_zpow_right₀ (by norm_num) (by omega)
        linarith
      exact le_trans (roundAbs_le_of_le_zpow (le_of_lt hlt) hq1)
        (zpow_binade_le_roundAbs hrpos hr1)


theorem roundAbs_idem {q : ℚ} (hq : 0 ≤ q) : roundAbs (roundAbs q) = roundAbs q := by
  rcases eq_or_lt_of_le hq with h0 | hpos
  · rw [← h0, roundAbs_zero, roundAbs_zero]
  · have hy0 : 0 ≤ roundAbs q := roundAbs_nonneg hq
    have hgrid : roundAbs q = roundHalfEven (q / ulp q) * 2 ^ (binade q - 52) := rfl
    have htop : roundAbs q ≤ 2 ^ (binade q + 1) :=
      roundAbs_le_of_le_zpow (by omega) (le_of_lt (lt_zpow_binade_succ q))
    rcases eq_or_lt_of_le hy0 with hz | hypos
    · rw [← hz, roundAbs_zero]
    · rcases eq_or_lt_of_le htop with heq | hlt
      · have hb : binade (roundAbs q) = binade q + 1 := by
          apply binade_eq_of_bounds (by have := binade_ge q; omega) (le_of_eq heq.symm)
          rw [heq]
          exact zpow_lt_zpow_right₀ (by norm_num) (by omega)
        apply roundAbs_of_grid (n := (2 : ℤ) ^ 52) hb
        rw [heq]
        have h52 : (((2 : ℤ) ^ 52 : ℤ) : ℚ) = (2 : ℚ) ^ (52 : ℤ) := by norm_num
        rw [h52, ← zpow_add₀ (by norm_num)]
        congr 1
        ring
      · have hb : binade (roundAbs q) = binade q := by
          rcases eq_or_lt_of_le (binade_ge q) with hmin | hnorm
          · rw [← hmin] at hlt ⊢
            exact binade_eq_min hypos (by simpa using hlt)
          · exact binade_eq_of_bounds (binade_ge q) (zpow_binade_le_roundAbs hpos hnorm) hlt
        exact roundAbs_of_grid hb hgrid

theorem fl_zero : fl 0 = 0 := by
  simp [fl, roundAbs_zero]

theorem fl_of_nonneg {q : ℚ} (hq : 0 ≤ q) : fl q = roundAbs q := by
  rw [fl, if_neg (not_lt.mpr hq)]

theorem fl_nonneg {q : ℚ} (hq : 0 ≤ q) : 0 ≤ fl q := by
  rw [fl_of_nonneg hq]
  exact roundAbs_nonneg hq

theorem fl_neg (q : ℚ) : fl (-q) = -fl q := by
  rcases lt_trichotomy q 0 with h | h | h
  · rw [fl, if_neg (by linarith), fl, if_pos h, neg_neg]
  · rw [h, neg_zero, fl_zero, neg_zero]
  · rw [fl, if_pos (by linarith), neg_neg, fl, if_neg (by linarith)]

theorem fl_mono {q r : ℚ} (h : q ≤ r) : fl q ≤ fl r := by
  rcases le_or_lt 0 q with hq | hq
  · rw [fl_of_nonneg hq, fl_of_nonneg (le_trans hq h)]
    exact roundAbs_mono hq h
  · rcases le_or_lt 0 r with hr | hr
    · have h1 : fl q ≤ 0 := by
        have := fl_nonneg (q := -q) (by linarith)
        rw [fl_neg] at this
        linarith
      exact le_trans h1 (fl_nonneg hr)
    · have h1 := roundAbs_mono (q := -r) (r := -q) (by linarith) (by linarith)
      rw [← fl_of_nonneg (by linarith), ← fl_of_nonneg (by linarith), fl_neg, fl_neg] at h1
      linarith

theorem fl_idem (q : ℚ) : fl (fl q) = fl q := by
  rcases le_or_lt 0 q with hq | hq
  · rw [fl_of_nonneg hq, fl_of_nonneg (roundAbs_nonneg hq)]
    exact roundAbs_idem hq
  · have hq' : (0 : ℚ) ≤ -q := by linarith
    have h1 : fl q = -roundAbs (-q) := by rw [fl, if_pos hq]
    rw [h1, fl_neg, fl_of_nonneg (roundAbs_nonneg hq'), roundAbs_idem hq']

theorem abs_fl (q : ℚ) : |fl q| = fl |q| := by
  rcases le_or_lt 0 q with hq | hq
  · rw [abs_of_nonneg hq, abs_of_nonneg (fl_nonneg hq)]
  · have h1 : fl q ≤ 0 := by
      have := fl_nonneg (q := -q) (by linarith)
      rw [fl_neg] at this
      linarith
    rw [abs_of_neg hq, abs_of_nonpos h1, fl_neg]

/-- The smallest positive binary64 value is `2^-1074`: a nonzero fixed point of
the rounding is at least that large in magnitude. -/
theorem le_abs_of_fl_eq {x : ℚ} (hx : fl x = x) (hne : x ≠ 0) : 2 ^ (-1074 : ℤ) ≤ |x| := by
  have habs : roundAbs |x| = |x| := by
    rw [← fl_of_nonneg (abs_nonneg x), ← abs_fl, hx]
  have hpos : 0 < |x| := abs_pos.mpr hne
  have hu : (2 : ℚ) ^ (-1074 : ℤ) ≤ ulp |x| := by
    unfold ulp
    exact zpow_le_zpow_right₀ (by norm_num) (by have := binade_ge |x|; omega)
  have hn : (1 : ℤ) ≤ roundHalfEven (|x| / ulp |x|) := by
    by_contra hlt
    have hle : roundHalfEven (|x| / ulp |x|) ≤ 0 := by omega
    have hcast : (roundHalfEven (|x| / ulp |x|) : ℚ) ≤ 0 := by exact_mod_cast hle
    have : roundAbs |x| ≤ 0 := mul_nonpos_of_nonpos_of_nonneg hcast (le_of_lt (ulp_pos _))
    rw [habs] at this
    linarith
  have hcast : (1 : ℚ) ≤ (roundHalfEven (|x| / ulp |x|) : ℚ) := by exact_mod_cast hn
  calc (2 : ℚ) ^ (-1074 : ℤ) ≤ ulp |x| := hu
    _ = 1 * ulp |x| := (one_mul _).symm
    _ ≤ (roundHalfEven (|x| / ulp |x|) : ℚ) * ulp |x| :=
        mul_le_mul_of_nonneg_right hcast (le_of_lt (ulp_pos _))
    _ = |x| := habs

/-! ## Evaluating the rounding -/

/-- `Representable` unfolded. -/
theorem representable_iff (q : ℚ) :
    Representable q = true ↔ fl q = q ∧ |q| < 2 ^ 1024 := by
  simp [Representable]

/-- A finite binary64 value is a fixed point of the rounding. -/
theorem fl_of_representable {q : ℚ} (h : Representable q = true) : fl q = q :=
  ((representable_iff q).mp h).1

/-- The negative of a binary64 value is a binary64 value. -/
theorem representable_neg {q : ℚ} (h : Representable q = true) : Representable (-q) = true := by
  rw [representable_iff] at h ⊢
  rw [fl_neg, h.1, abs_neg]
  exact ⟨rfl, h.2⟩

/-- A tie between two integers goes to the even one below. -/
theorem roundHalfEven_tie_even (k : ℤ) (hk : k % 2 = 0) :
    roundHalfEven ((k : ℚ) + 1 / 2) = k := by
  have hfloor : ⌊(k : ℚ) + 1 / 2⌋ = k := by
    rw [Int.floor_eq_iff]
    constructor <;> linarith
  unfold roundHalfEven
  rw [hfloor]
  have hfrac : (k : ℚ) + 1 / 2 - k = 1 / 2 := by ring
  rw [hfrac, if_neg (lt_irrefl _), if_neg (lt_irrefl _), if_pos hk]

/-- The rounding of a non-negative rational from the binade it lies in and a
multiple of the spacing closer than half the spacing. -/
theorem fl_eq_of_near {q : ℚ} {e m : ℤ} (he : -1022 ≤ e) (hlo : 2 ^ e ≤ q)
    (hhi : q < 2 ^ (e + 1)) (hnear : |q - m * 2 ^ (e - 52)| < 2 ^ (e - 53)) :
    fl q = m * 2 ^ (e - 52) := by
  have hq : 0 ≤ q := le_trans (by positivity) hlo
  rw [fl_of_nonneg hq]
  exact roundAbs_eq_of_near (binade_eq_of_bounds he hlo hhi) hnear

/-- The rounding of a non-negative rational lying halfway between two
neighbouring multiples of the spacing, the lower one even. -/
theorem fl_eq_of_tie {q : ℚ} {e k : ℤ} (he : -1022 ≤ e) (hlo : 2 ^ e ≤ q)
    (hhi : q < 2 ^ (e + 1)) (hq : q = ((k : ℚ) + 1 / 2) * 2 ^ (e - 52)) (hk : k % 2 = 0) :
    fl q = k * 2 ^ (e - 52) := by
  have hq0 : 0 ≤ q := le_trans (by positivity) hlo
  have hu : ulp q = 2 ^ (e - 52) := by rw [ulp, binade_eq_of_bounds he hlo hhi]
  have hupos : (0 : ℚ) < 2 ^ (e - 52) := by positivity
  rw [fl_of_nonneg hq0, roundAbs, hu]
  have hdiv : q / 2 ^ (e - 52) = (k : ℚ) + 1 / 2 := by
    rw [hq, mul_div_assoc, div_self (ne_of_gt hupos), mul_one]
  rw [hdiv, roundHalfEven_tie_even k hk]

/-- The rounding of a positive rational in the subnormal range. -/
theorem fl_eq_of_near_subnormal {q : ℚ} {m : ℤ} (hq : 0 < q) (hhi : q < 2 ^ (-1021 : ℤ))
    (hnear : |q - m * 2 ^ (-1074 : ℤ)| < 2 ^ (-1075 : ℤ)) :
    fl q = m * 2 ^ (-1074 : ℤ) := by
  rw [fl_of_nonneg (le_of_lt hq)]
  exact roundAbs_eq_of_near (e := -1022) (binade_eq_min hq hhi) hnear

/-- An integer of fewer than 54 bits divided by a power of two down to `2^-1074`
is a binary64 value. -/
theorem representable_dyadic (k : ℤ) (j : ℕ) (hk : |k| < 2 ^ 53) (hj : j ≤ 1074) :
    Representable ((k : ℚ) / 2 ^ j) = true := by
  have hpos : ∀ n : ℤ, 0 < n → n < 2 ^ 53 → Representable ((n : ℚ) / 2 ^ j) = true := by
    intro n hn0 hn
    have hq0 : (0 : ℚ) < (n : ℚ) / 2 ^ j := by
      have : (0 : ℚ) < n := by exact_mod_cast hn0
      positivity
    have hnq : (n : ℚ) < 2 ^ (53 : ℤ) := by
      have h1 : (n : ℚ) < ((2 ^ 53 : ℤ) : ℚ) := by exact_mod_cast hn
      have h2 : (((2 : ℤ) ^ 53 : ℤ) : ℚ) = (2 : ℚ) ^ (53 : ℤ) := by norm_num
      rw [h2] at h1
      exact h1
    have hqlt : (n : ℚ) / 2 ^ j < 2 ^ (53 - (j : ℤ)) := by
      rw [zpow_sub₀ (by norm_num), zpow_natCast]
      exact div_lt_div_of_pos_right hnq (by positivity)
    have hble : binade ((n : ℚ) / 2 ^ j) ≤ 52 - (j : ℤ) := by
      unfold binade
      apply max_le
      · have hlog : Int.log 2 ((n : ℚ) / 2 ^ j) < 53 - (j : ℤ) := by
          rw [← Int.lt_zpow_iff_log_lt (by norm_num) hq0]
          exact_mod_cast hqlt
        omega
      · omega
    obtain ⟨d, hd⟩ : ∃ d : ℕ, (d : ℤ) = 52 - (j : ℤ) - binade ((n : ℚ) / 2 ^ j) :=
      ⟨(52 - (j : ℤ) - binade ((n : ℚ) / 2 ^ j)).toNat, Int.toNat_of_nonneg (by omega)⟩
    rw [representable_iff]
    constructor
    · rw [fl_of_nonneg (le_of_lt hq0)]
      apply roundAbs_of_grid (n := n * 2 ^ d) rfl
      push_cast
      rw [← zpow_natCast (2 : ℚ) d, hd, mul_assoc, ← zpow_add₀ (by norm_num)]
      rw [show 52 - (j : ℤ) - binade ((n : ℚ) / 2 ^ j) + (binade ((n : ℚ) / 2 ^ j) - 52)
        = -(j : ℤ) by ring, zpow_neg, zpow_natCast]
      rfl
    · rw [abs_of_pos hq0]
      have h1 : (n : ℚ) / 2 ^ j ≤ n := div_le_self (by exact_mod_cast le_of_lt hn0)
        (one_le_pow₀ (by norm_num))
      have h2 : (2 : ℚ) ^ (53 : ℤ) < 2 ^ 1024 := by norm_num
      linarith
  rcases lt_trichotomy k 0 with hneg | hzero | hkpos
  · have hk' : -k < 2 ^ 53 := by
      rw [abs_of_neg hneg] at hk
      exact hk
    have h := representable_neg (hpos (-k) (by omega) hk')
    have hrew : -(((-k : ℤ) : ℚ) / 2 ^ j) = (k : ℚ) / 2 ^ j := by
      push_cast
      ring
    rw [hrew] at h
    exact h
  · rw [hzero, representable_iff]
    simp [fl_zero]
  · rw [abs_of_pos hkpos] at hk
    exact hpos k hkpos hk

/-- An integer of fewer than 54 bits is a binary64 value. -/
theorem representable_int (k : ℤ) (hk : |k| < 2 ^ 53) : Representable (k : ℚ) = true := by
  have h := representable_dyadic k 0 hk (by norm_num)
  simpa using h

/-! ## The binary64 constants of the scenarios -/

/-- The binary64 value of `0.1`. -/
theorem tenth_eq : tenth = 3602879701896397 / 2 ^ 55 := by
  have h := fl_eq_of_near (q := 1 / 10) (e := -4) (m := 7205759403792794)
    (by norm_num) (by norm_num) (by norm_num) (by rw [abs_lt]; constructor <;> norm_num)
  rw [tenth, h]
  norm_num

/-- The binary64 value of `0.2`. -/
theorem fifth_eq : fifth = 3602879701896397 / 2 ^ 54 := by
  have h := fl_eq_of_near (q := 1 / 5) (e := -3) (m := 7205759403792794)
    (by norm_num) (by norm_num) (by norm_num) (by rw [abs_lt]; constructor <;> norm_num)
  rw [fifth, h]
  norm_num

/-- The binary64 value of `0.95`, a little below `19/20`. -/
theorem frictionMultiplier64_eq :
    Player.frictionMultiplier64 = 4278419646001971 / 2 ^ 52 := by
  have h := fl_eq_of_near (q := 19 / 20) (e := -1) (m := 8556839292003942)
    (by norm_num) (by norm_num) (by norm_num) (by rw [abs_lt]; constructor <;> norm_num)
  rw [Player.frictionMultiplier64, h]
  norm_num

/-- The binary64 difference `0.1 - 50`: it lies `51 / 2^55` above the exact difference. -/
theorem fl_tenth_sub_fifty : fl (tenth - 50) = -(7022800668930867 / 2 ^ 47) := by
  have h := fl_eq_of_near (q := 50 - tenth) (e := 5) (m := 7022800668930867)
    (by norm_num) (by rw [tenth_eq]; norm_num) (by rw [tenth_eq]; norm_num)
    (by rw [tenth_eq, abs_lt]; constructor <;> norm_num)
  have hneg : tenth - 50 = -(50 - tenth) := by ring
  rw [hneg, fl_neg, h]
  norm_num

/-! ## `inflate` on binary64 numbers -/

/-- C15 (counterexample to the claim as stated): on binary64 numbers
`Rect(0.1, 0.1, 1, 1)` inflated by `(0.2, 0.2)` and then by `(-0.2, -0.2)` comes
back with `w = 1 - 2^-53` (printed `0.9999999999999999`), not `1`: the sum
`1 + 0.4` is a tie and rounds to `1.4`, and `1.4 - 0.4` is then below `1`. -/
theorem inflate64_round_trip_drifts :
    Representable tenth = true ∧ Representable fifth = true ∧
    (tenthRect.inflate64 fifth fifth).w = 6305039478318694 / 2 ^ 52 ∧
    ((tenthRect.inflate64 fifth fifth).inflate64 (-fifth) (-fifth)).w =
      9007199254740991 / 2 ^ 53 ∧
    ((tenthRect.inflate64 fifth fifth).inflate64 (-fifth) (-fifth)).w ≠ tenthRect.w ∧
    (tenthRect.inflate64 fifth fifth).inflate64 (-fifth) (-fifth) ≠ tenthRect := by
  have ht : Representable tenth = true := by
    rw [tenth_eq]
    have hd := representable_dyadic 3602879701896397 55 (by norm_num) (by norm_num)
    rw [Int.cast_ofNat] at hd
    exact hd
  have hf : Representable fifth = true := by
    rw [fifth_eq]
    have hd := representable_dyadic 3602879701896397 54 (by norm_num) (by norm_num)
    rw [Int.cast_ofNat] at hd
    exact hd
  have h2f : fl (2 * fifth) = 3602879701896397 / 2 ^ 53 := by
    have hrep : Representable ((3602879701896397 : ℚ) / 2 ^ 53) = true := by
      have hd := representable_dyadic 3602879701896397 53 (by norm_num) (by norm_num)
      rw [Int.cast_ofNat] at hd
      exact hd
    have hval : 2 * fifth = 3602879701896397 / 2 ^ 53 := by
      rw [fifth_eq]
      norm_num
    rw [hval]
    exact fl_of_representable hrep
  have hw1 : (tenthRect.inflate64 fifth fifth).w = 6305039478318694 / 2 ^ 52 := by
    have htie := fl_eq_of_tie (q := 1 + 3602879701896397 / 2 ^ 53) (e := 0)
      (k := 6305039478318694) (by norm_num) (by norm_num) (by norm_num) (by norm_num)
      (by norm_num)
    show fl (1 + fl (2 * fifth)) = 6305039478318694 / 2 ^ 52
    rw [h2f, htie]
    norm_num
  have hw2 : ((tenthRect.inflate64 fifth fifth).inflate64 (-fifth) (-fifth)).w =
      9007199254740991 / 2 ^ 53 := by
    have hrep : Representable ((9007199254740991 : ℚ) / 2 ^ 53) = true := by
      have hd := representable_dyadic 9007199254740991 53 (by norm_num) (by norm_num)
      rw [Int.cast_ofNat] at hd
      exact hd
    show fl ((tenthRect.inflate64 fifth fifth).w + fl (2 * -fifth)) = 9007199254740991 / 2 ^ 53
    have hneg : 2 * -fifth = -(2 * fifth) := by ring
    rw [hw1, hneg, fl_neg, h2f]
    have hval : (6305039478318694 : ℚ) / 2 ^ 52 + -(3602879701896397 / 2 ^ 53) =
        9007199254740991 / 2 ^ 53 := by norm_num
    rw [hval]
    exact fl_of_representable hrep
  have hne : ((tenthRect.inflate64 fifth fifth).inflate64 (-fifth) (-fifth)).w ≠ tenthRect.w := by
    rw [hw2]
    show (9007199254740991 : ℚ) / 2 ^ 53 ≠ 1
    norm_num
  refine ⟨ht, hf, hw1, hw2, hne, ?_⟩
  intro heq
  exact hne (by rw [heq])

/-- C15 (as amended): on binary64 numbers, when the products `2*dw`, `2*dh` and
the four results `x - dw`, `y - dh`, `w + 2*dw`, `h + 2*dh` are binary64 values
(so that no operation of `inflate` rounds), `inflate(dw, dh)` yields exactly
those four values, the centre `(x + w/2, y + h/2)` is unchanged, and
`inflate(-dw, -dh)` restores the original rectangle. -/
theorem inflate64_exact (r : Rect) (dw dh : ℚ)
    (hx : Representable r.x = true) (hy : Representable r.y = true)
    (hw : Representable r.w = true) (hh : Representable r.h = true)
    (h2w : Representable (2 * dw) = true) (h2h : Representable (2 * dh) = true)
    (hx1 : Representable (r.x - dw) = true) (hy1 : Representable (r.y - dh) = true)
    (hw1 : Representable (r.w + 2 * dw) = true) (hh1 : Representable (r.h + 2 * dh) = true) :
    (r.inflate64 dw dh).x = r.x - dw ∧
    (r.inflate64 dw dh).y = r.y - dh ∧
    (r.inflate64 dw dh).w = r.w + 2 * dw ∧
    (r.inflate64 dw dh).h = r.h + 2 * dh ∧
    (r.inflate64 dw dh).x + (r.inflate64 dw dh).w / 2 = r.x + r.w / 2 ∧
    (r.inflate64 dw dh).y + (r.inflate64 dw dh).h / 2 = r.y + r.h / 2 ∧
    (r.inflate64 dw dh).inflate64 (-dw) (-dh) = r := by
  have ex : fl (r.x + -dw) = r.x - dw := by
    rw [← sub_eq_add_neg]
    exact fl_of_representable hx1
  have ey : fl (r.y + -dh) = r.y - dh := by
    rw [← sub_eq_add_neg]
    exact fl_of_representable hy1
  have ew : fl (r.w + fl (2 * dw)) = r.w + 2 * dw := by
    rw [fl_of_representable h2w]
    exact fl_of_representable hw1
  have eh : fl (r.h + fl (2 * dh)) = r.h + 2 * dh := by
    rw [fl_of_representable h2h]
    exact fl_of_representable hh1
  have hfirst : r.inflate64 dw dh = ⟨r.x - dw, r.y - dh, r.w + 2 * dw, r.h + 2 * dh⟩ := by
    simp only [Rect.inflate64, Rect.translate64, Rect.grow64, ex, ey, ew, eh]
  have bx : fl (r.x - dw + - -dw) = r.x := by
    rw [show r.x - dw + - -dw = r.x by ring]
    exact fl_of_representable hx
  have by1 : fl (r.y - dh + - -dh) = r.y := by
    rw [show r.y - dh + - -dh = r.y by ring]
    exact fl_of_representable hy
  have bw : fl (r.w + 2 * dw + fl (2 * -dw)) = r.w := by
    rw [show 2 * -dw = -(2 * dw) by ring, fl_neg, fl_of_representable h2w,
      show r.w + 2 * dw + -(2 * dw) = r.w by ring]
    exact fl_of_representable hw
  have bh : fl (r.h + 2 * dh + fl (2 * -dh)) = r.h := by
    rw [show 2 * -dh = -(2 * dh) by ring, fl_neg, fl_of_representable h2h,
      show r.h + 2 * dh + -(2 * dh) = r.h by ring]
    exact fl_of_representable hh
  rw [hfirst]
  refine ⟨rfl, rfl, rfl, rfl, ?_, ?_, ?_⟩
  · show r.x - dw + (r.w + 2 * dw) / 2 = r.x + r.w / 2
    ring
  · show r.y - dh + (r.h + 2 * dh) / 2 = r.y + r.h / 2
    ring
  · simp only [Rect.inflate64, Rect.translate64, Rect.grow64, bx, by1, bw, bh]

/-- C15 (witness): the rectangle of `ledge`, `(150, 250, 350, 50)`, inflated by
`(10, 5)` involves integers only: it becomes `(140, 245, 370, 60)` and
`inflate(-10, -5)` restores it. -/
theorem inflate64_exact_witness :
    Representable (150 : ℚ) = true ∧ Representable (250 : ℚ) = true ∧
    Representable (350 : ℚ) = true ∧ Representable (50 : ℚ) = true ∧
    Rect.inflate64 ⟨150, 250, 350, 50⟩ 10 5 = ⟨140, 245, 370, 60⟩ ∧
    (Rect.inflate64 ⟨150, 250, 350, 50⟩ 10 5).inflate64 (-10) (-5) = ⟨150, 250, 350, 50⟩ := by
  have hint : ∀ k : ℤ, |k| < 2 ^ 53 → Representable (k : ℚ) = true := representable_int
  have h150 : Representable (150 : ℚ) = true := by exact_mod_cast hint 150 (by norm_num)
  have h250 : Representable (250 : ℚ) = true := by exact_mod_cast hint 250 (by norm_num)
  have h350 : Representable (350 : ℚ) = true := by exact_mod_cast hint 350 (by norm_num)
  have h50 : Representable (50 : ℚ) = true := by exact_mod_cast hint 50 (by norm_num)
  have h := inflate64_exact ⟨150, 250, 350, 50⟩ 10 5 h150 h250 h350 h50
    (by norm_num; exact_mod_cast hint 20 (by norm_num))
    (by norm_num; exact_mod_cast hint 10 (by norm_num))
    (by norm_num; exact_mod_cast hint 140 (by norm_num))
    (by norm_num; exact_mod_cast hint 245 (by norm_num))
    (by norm_num; exact_mod_cast hint 370 (by norm_num))
    (by norm_num; exact_mod_cast hint 60 (by norm_num))
  obtain ⟨e1, e2, e3, e4, -, -, e7⟩ := h
  refine ⟨h150, h250, h350, h50, ?_, e7⟩
  have hfields : ∀ a b : Rect, a.x = b.x → a.y = b.y → a.w = b.w → a.h = b.h → a = b := by
    intro a b h1 h2 h3 h4
    cases a
    cases b
    simp only at h1 h2 h3 h4
    rw [h1, h2, h3, h4]
  apply hfields
  · rw [e1]; norm_num
  · rw [e2]; norm_num
  · rw [e3]; norm_num
  · rw [e4]; norm_num

/-! ## Friction on binary64 numbers -/

/-- The binary64 value of `0.95` lies strictly between `1/2` and `1`. -/
theorem frictionMultiplier64_bounds :
    1 / 2 < Player.frictionMultiplier64 ∧ Player.frictionMultiplier64 < 1 := by
  rw [frictionMultiplier64_eq]
  constructor <;> norm_num

/-- Friction applied `n` times on binary64 numbers iterates the rounded product
on `vx` and touches nothing else. -/
theorem applyFriction64_iterate_eq (pl : Player) (n : Nat) :
    Player.applyFriction64^[n] pl =
      { pl with vx := (fun v => fl (v * Player.frictionMultiplier64))^[n] pl.vx } := by
  induction n with
  | zero => simp
  | succ k ih =>
      rw [Function.iterate_succ_apply', Function.iterate_succ_apply', ih]
      rfl

/-- One rounded product by `0.95` takes a nonzero binary64 value to a nonzero
binary64 value of no larger magnitude. -/
theorem friction_step (v : ℚ) (hv : Representable v = true) (hne : v ≠ 0) :
    Representable (fl (v * Player.frictionMultiplier64)) = true ∧
    fl (v * Player.frictionMultiplier64) ≠ 0 ∧
    |fl (v * Player.frictionMultiplier64)| ≤ |v| := by
  obtain ⟨hc1, hc2⟩ := frictionMultiplier64_bounds
  obtain ⟨hfix, hbound⟩ := (representable_iff v).mp hv
  have habs : |fl (v * Player.frictionMultiplier64)| = fl (|v| * Player.frictionMultiplier64) := by
    rw [abs_fl, abs_mul, abs_of_pos (lt_trans (by norm_num) hc1)]
  have hvabs : fl |v| = |v| := by rw [← abs_fl, hfix]
  have hle : fl (|v| * Player.frictionMultiplier64) ≤ |v| := by
    have hmono := fl_mono (q := |v| * Player.frictionMultiplier64) (r := |v|)
      (by nlinarith [abs_nonneg v])
    rw [hvabs] at hmono
    exact hmono
  have hmin : (2 : ℚ) ^ (-1074 : ℤ) ≤ |v| := le_abs_of_fl_eq hfix hne
  have hsmall : fl (2 ^ (-1074 : ℤ) * Player.frictionMultiplier64) = 2 ^ (-1074 : ℤ) := by
    have h := fl_eq_of_near_subnormal
      (q := 2 ^ (-1074 : ℤ) * Player.frictionMultiplier64) (m := 1)
      (by have : (0 : ℚ) < 2 ^ (-1074 : ℤ) := by positivity
          nlinarith)
      (by have h1 : (2 : ℚ) ^ (-1074 : ℤ) < 2 ^ (-1021 : ℤ) :=
            zpow_lt_zpow_right₀ (by norm_num) (by norm_num)
          have : (0 : ℚ) < 2 ^ (-1074 : ℤ) := by positivity
          nlinarith)
      (by have hsplit : (2 : ℚ) ^ (-1075 : ℤ) = 2 ^ (-1074 : ℤ) * (1 / 2) := by
            rw [show (-1075 : ℤ) = -1074 + -1 by norm_num, zpow_add₀ (by norm_num)]
            norm_num
          have hp : (0 : ℚ) < 2 ^ (-1074 : ℤ) := by positivity
          rw [hsplit, abs_lt]
          constructor <;> push_cast <;> nlinarith)
    rw [h]
    push_cast
    ring
  have hge : (2 : ℚ) ^ (-1074 : ℤ) ≤ fl (|v| * Player.frictionMultiplier64) := by
    have hmono := fl_mono (q := 2 ^ (-1074 : ℤ) * Player.frictionMultiplier64)
      (r := |v| * Player.frictionMultiplier64)
      (mul_le_mul_of_nonneg_right hmin (le_of_lt (lt_trans (by norm_num) hc1)))
    rw [hsmall] at hmono
    exact hmono
  have hpos : (0 : ℚ) < 2 ^ (-1074 : ℤ) := by positivity
  refine ⟨?_, ?_, ?_⟩
  · rw [representable_iff]
    refine ⟨fl_idem _, ?_⟩
    rw [habs]
    exact lt_of_le_of_lt hle hbound
  · intro hzero
    rw [hzero, abs_zero] at habs
    rw [← habs] at hge
    linarith
  · rw [habs]
    exact hle

/-- C14 (as amended): on binary64 numbers, `n` applications of `applyFriction`
leave every field but `vx` unchanged and make `vx` the `n`-fold rounded product
by the binary64 value of `0.95` (it equals `vx0 * 0.95^n` only up to rounding);
`vx0 = 10` gives exactly `9.5` after one application; and for a binary64
`vx0 != 0` the value is never exactly `0` and its magnitude never increases. -/
theorem applyFriction64_decay (pl : Player) (n : Nat) :
    Player.applyFriction64^[n] pl =
      { pl with vx := (fun v => fl (v * Player.frictionMultiplier64))^[n] pl.vx } ∧
    (pl.vx = 10 → pl.applyFriction64.vx = 19 / 2) ∧
    (Representable pl.vx = true → pl.vx ≠ 0 →
      (Player.applyFriction64^[n] pl).vx ≠ 0 ∧
      |(Player.applyFriction64^[n + 1] pl).vx| ≤ |(Player.applyFriction64^[n] pl).vx|) := by
  refine ⟨applyFriction64_iterate_eq pl n, ?_, ?_⟩
  · intro h10
    show fl (pl.vx * Player.frictionMultiplier64) = 19 / 2
    rw [h10, frictionMultiplier64_eq]
    have h := fl_eq_of_near (q := 10 * (4278419646001971 / 2 ^ 52)) (e := 3)
      (m := 5348024557502464) (by norm_num) (by norm_num) (by norm_num)
      (by rw [abs_lt]; constructor <;> norm_num)
    rw [h]
    norm_num
  · intro hrep hne
    have hinv : ∀ k : Nat,
        Representable ((fun v => fl (v * Player.frictionMultiplier64))^[k] pl.vx) = true ∧
        (fun v => fl (v * Player.frictionMultiplier64))^[k] pl.vx ≠ 0 := by
      intro k
      induction k with
      | zero => exact ⟨hrep, hne⟩
      | succ k ih =>
          rw [Function.iterate_succ_apply']
          exact ⟨(friction_step _ ih.1 ih.2).1, (friction_step _ ih.1 ih.2).2.1⟩
    rw [applyFriction64_iterate_eq, applyFriction64_iterate_eq]
    refine ⟨(hinv n).2, ?_⟩
    show |(fun v => fl (v * Player.frictionMultiplier64))^[n + 1] pl.vx| ≤
      |(fun v => fl (v * Player.frictionMultiplier64))^[n] pl.vx|
    rw [Function.iterate_succ_apply']
    exact (friction_step _ (hinv n).1 (hinv n).2).2.2

/-- C14 (witness): `slidingPlayer`, with the binary64 value `vx = 10`, has
`vx = 9.5` after one application, and after two a nonzero value of magnitude
at most `9.5`. -/
theorem applyFriction64_decay_witness :
    slidingPlayer.vx = 10 ∧ Representable slidingPlayer.vx = true ∧ slidingPlayer.vx ≠ 0 ∧
    slidingPlayer.applyFriction64.vx = 19 / 2 ∧
    (Player.applyFriction64^[2] slidingPlayer).vx ≠ 0 ∧
    |(Player.applyFriction64^[2] slidingPlayer).vx| ≤
      |(Player.applyFriction64^[1] slidingPlayer).vx| := by
  have h10 : slidingPlayer.vx = 10 := rfl
  have hrep : Representable slidingPlayer.vx = true := by
    rw [h10]
    exact_mod_cast representable_int 10 (by norm_num)
  have hne : slidingPlayer.vx ≠ 0 := by
    rw [h10]
    norm_num
  exact ⟨h10, hrep, hne, (applyFriction64_decay slidingPlayer 1).2.1 h10,
    ((applyFriction64_decay slidingPlayer 2).2.2 hrep hne).1,
    ((applyFriction64_decay slidingPlayer 1).2.2 hrep hne).2⟩

/-- C14 (counterexample to the claim as stated): on binary64 numbers, two
applications from `vx0 = 10` give `5080623329627341 / 2^49`, which is not
`10 * 0.95^2 = 361/40`; and at the binary64 value `vx = 9 * 2^-1074` one
application returns the same `vx`, so the magnitude does not strictly decrease. -/
theorem applyFriction64_not_exact_nor_strict :
    (Player.applyFriction64^[2] slidingPlayer).vx = 5080623329627341 / 2 ^ 49 ∧
    (Player.applyFriction64^[2] slidingPlayer).vx ≠ slidingPlayer.vx * (19 / 20) ^ 2 ∧
    Representable creepingPlayer.vx = true ∧ creepingPlayer.vx ≠ 0 ∧
    creepingPlayer.applyFriction64.vx = creepingPlayer.vx ∧
    ¬ |creepingPlayer.applyFriction64.vx| < |creepingPlayer.vx| := by
  have h1 : fl (10 * (4278419646001971 / 2 ^ 52)) = 19 / 2 := by
    have h := fl_eq_of_near (q := 10 * (4278419646001971 / 2 ^ 52)) (e := 3)
      (m := 5348024557502464) (by norm_num) (by norm_num) (by norm_num)
      (by rw [abs_lt]; constructor <;> norm_num)
    rw [h]
    norm_num
  have h2 : fl (19 / 2 * (4278419646001971 / 2 ^ 52)) = 5080623329627341 / 2 ^ 49 := by
    have h := fl_eq_of_near (q := 19 / 2 * (4278419646001971 / 2 ^ 52)) (e := 3)
      (m := 5080623329627341) (by norm_num) (by norm_num) (by norm_num)
      (by rw [abs_lt]; constructor <;> norm_num)
    rw [h]
    norm_num
  have htwo : (Player.applyFriction64^[2] slidingPlayer).vx = 5080623329627341 / 2 ^ 49 := by
    show fl (fl (10 * Player.frictionMultiplier64) * Player.frictionMultiplier64) = _
    rw [frictionMultiplier64_eq, h1, h2]
  have hcreep : fl (9 * 2 ^ (-1074 : ℤ) * (4278419646001971 / 2 ^ 52)) =
      9 * 2 ^ (-1074 : ℤ) := by
    have hp : (0 : ℚ) < 2 ^ (-1074 : ℤ) := by positivity
    have h := fl_eq_of_near_subnormal
      (q := 9 * 2 ^ (-1074 : ℤ) * (4278419646001971 / 2 ^ 52)) (m := 9)
      (by positivity)
      (by have h1 : (2 : ℚ) ^ (-1021 : ℤ) = 2 ^ (-1074 : ℤ) * 2 ^ (53 : ℤ) := by
            rw [← zpow_add₀ (by norm_num)]
            norm_num
          rw [h1]
          have : (9 : ℚ) * (4278419646001971 / 2 ^ 52) < 2 ^ (53 : ℤ) := by norm_num
          nlinarith)
      (by have hsplit : (2 : ℚ) ^ (-1075 : ℤ) = 2 ^ (-1074 : ℤ) * (1 / 2) := by
            rw [show (-1075 : ℤ) = -1074 + -1 by norm_num, zpow_add₀ (by norm_num)]
            norm_num
          rw [hsplit, abs_lt]
          have hlo : (17 / 2 : ℚ) < 9 * (4278419646001971 / 2 ^ 52) := by norm_num
          have hhi : (9 : ℚ) * (4278419646001971 / 2 ^ 52) < 19 / 2 := by norm_num
          constructor <;> push_cast <;> nlinarith)
    rw [h]
    push_cast
    ring
  have hstall : creepingPlayer.applyFriction64.vx = creepingPlayer.vx := by
    show fl (9 * 2 ^ (-1074 : ℤ) * Player.frictionMultiplier64) = 9 * 2 ^ (-1074 : ℤ)
    rw [frictionMultiplier64_eq]
    exact hcreep
  have hrep : Representable creepingPlayer.vx = true := by
    have hd := representable_dyadic 9 1074 (by norm_num) (by norm_num)
    have hval : ((9 : ℤ) : ℚ) / 2 ^ 1074 = creepingPlayer.vx := by
      show ((9 : ℤ) : ℚ) / 2 ^ 1074 = 9 * 2 ^ (-1074 : ℤ)
      have hpow : (2 : ℚ) ^ (1074 : ℤ) = 2 ^ (1074 : ℕ) := zpow_natCast 2 1074
      rw [zpow_neg, div_eq_mul_inv, Int.cast_ofNat, hpow]
    rw [hval] at hd
    exact hd
  have hne : creepingPlayer.vx ≠ 0 := by
    show (9 : ℚ) * 2 ^ (-1074 : ℤ) ≠ 0
    positivity
  refine ⟨htwo, ?_, hrep, hne, hstall, ?_⟩
  · rw [htwo]
    show (5080623329627341 : ℚ) / 2 ^ 49 ≠ 10 * (19 / 20) ^ 2
    norm_num
  · rw [hstall]
    exact lt_irrefl _

/-! ## `handleCollision` on binary64 numbers -/

/-- An inequality between a rational and a binary64 value survives the rounding of the rational. -/
theorem fl_le_of_le {q x : ℚ} (hx : Representable x = true) (h : q ≤ x) : fl q ≤ x := by
  have := fl_mono h
  rwa [fl_of_representable hx] at this

/-- An inequality between a binary64 value and a rational survives the rounding of the rational. -/
theorem le_fl_of_le {q x : ℚ} (hx : Representable x = true) (h : x ≤ q) : x ≤ fl q := by
  have := fl_mono h
  rwa [fl_of_representable hx] at this

/-- C19 (as amended): on binary64 numbers, for a player and a platform with
positive sizes whose pre-move coordinates are binary64 values and whose pre-move
rectangles do not strictly overlap, `handleCollision` enters one of its four
branches and writes exactly one of `x`, `y` (with the velocity of that axis);
when the four candidate coordinates `p.x - w`, `p.x + p.w`, `p.y - h`,
`p.y + p.h` are binary64 values (the snap does not round), the player ends
exactly flush against the platform edge on that axis and the two rectangles
have disjoint interiors. -/
theorem handleCollision64_separates (z : Player) (p : Platform)
    (_hzw : 0 < z.w) (_hzh : 0 < z.h) (_hpw : 0 < p.w) (_hph : 0 < p.h)
    (hlx : Representable z.lastX = true) (hly : Representable z.lastY = true)
    (hplx : Representable p.lastX = true) (hply : Representable p.lastY = true)
    (hpre : ¬ (z.lastX < p.lastX + p.w ∧ p.lastX < z.lastX + z.w ∧
               z.lastY < p.lastY + p.h ∧ p.lastY < z.lastY + z.h))
    (hleft : Representable (p.x - z.w) = true) (hright : Representable (p.x + p.w) = true)
    (htop : Representable (p.y - z.h) = true) (hbottom : Representable (p.y + p.h) = true) :
    ((z.handleCollision64 p).x + (z.handleCollision64 p).w ≤ p.x ∨
      (z.handleCollision64 p).x ≥ p.x + p.w ∨
      (z.handleCollision64 p).y + (z.handleCollision64 p).h ≤ p.y ∨
      (z.handleCollision64 p).y ≥ p.y + p.h) ∧
    ((z.handleCollision64 p = { z with x := p.x - z.w, vx := 0 } ∧
        (z.handleCollision64 p).x + (z.handleCollision64 p).w = p.x) ∨
      (z.handleCollision64 p = { z with x := p.x + p.w, vx := 0 } ∧
        (z.handleCollision64 p).x = p.x + p.w) ∨
      (z.handleCollision64 p = { z with y := p.y - z.h, vy := 0, canJump := true } ∧
        (z.handleCollision64 p).y + (z.handleCollision64 p).h = p.y) ∨
      (z.handleCollision64 p = { z with y := p.y + p.h, vy := 0 } ∧
        (z.handleCollision64 p).y = p.y + p.h)) := by
  by_cases g1 : fl (z.lastX + z.w) ≤ p.lastX
  · have hres : z.handleCollision64 p = { z with x := p.x - z.w, vx := 0 } := by
      simp only [Player.handleCollision64, if_pos g1, fl_of_representable hleft]
    rw [hres]
    have hflush : (p.x - z.w) + z.w = p.x := by ring
    exact ⟨Or.inl (le_of_eq hflush), Or.inl ⟨rfl, hflush⟩⟩
  · by_cases g2 : z.lastX ≥ fl (p.lastX + p.w)
    · have hres : z.handleCollision64 p = { z with x := p.x + p.w, vx := 0 } := by
        simp only [Player.handleCollision64, if_neg g1, if_pos g2, fl_of_representable hright]
      rw [hres]
      exact ⟨Or.inr (Or.inl (le_refl _)), Or.inr (Or.inl ⟨rfl, rfl⟩)⟩
    · by_cases g3 : fl (z.lastY + z.h) ≤ p.lastY
      · have hres : z.handleCollision64 p =
            { z with y := p.y - z.h, vy := 0, canJump := true } := by
          simp only [Player.handleCollision64, if_neg g1, if_neg g2, if_pos g3,
            fl_of_representable htop]
        rw [hres]
        have hflush : (p.y - z.h) + z.h = p.y := by ring
        exact ⟨Or.inr (Or.inr (Or.inl (le_of_eq hflush))),
          Or.inr (Or.inr (Or.inl ⟨rfl, hflush⟩))⟩
      · have g4 : z.lastY ≥ fl (p.lastY + p.h) := by
          by_contra g4
          apply hpre
          refine ⟨?_, ?_, ?_, ?_⟩
          · by_contra hcon
            exact g2 (fl_le_of_le hlx (not_lt.mp hcon))
          · by_contra hcon
            exact g1 (fl_le_of_le hplx (not_lt.mp hcon))
          · by_contra hcon
            exact g4 (fl_le_of_le hly (not_lt.mp hcon))
          · by_contra hcon
            exact g3 (fl_le_of_le hply (not_lt.mp hcon))
        have hres : z.handleCollision64 p = { z with y := p.y + p.h, vy := 0 } := by
          simp only [Player.handleCollision64, if_neg g1, if_neg g2, if_neg g3, if_pos g4,
            fl_of_representable hbottom]
        rw [hres]
        exact ⟨Or.inr (Or.inr (Or.inr (le_refl _))), Or.inr (Or.inr (Or.inr ⟨rfl, rfl⟩))⟩

/-- C19 (witness): `overshootPlayer` against `ledge`, all coordinates integers,
ends flush on the left at `x = 100`. -/
theorem handleCollision64_separates_witness :
    ¬ (overshootPlayer.lastX < ledge.lastX + ledge.w ∧
       ledge.lastX < overshootPlayer.lastX + overshootPlayer.w ∧
       overshootPlayer.lastY < ledge.lastY + ledge.h ∧
       ledge.lastY < overshootPlayer.lastY + overshootPlayer.h) ∧
    Representable (ledge.x - overshootPlayer.w) = true ∧
    ((overshootPlayer.handleCollision64 ledge).x + (overshootPlayer.handleCollision64 ledge).w
        ≤ ledge.x ∨
      (overshootPlayer.handleCollision64 ledge).x ≥ ledge.x + ledge.w ∨
      (overshootPlayer.handleCollision64 ledge).y + (overshootPlayer.handleCollision64 ledge).h
        ≤ ledge.y ∨
      (overshootPlayer.handleCollision64 ledge).y ≥ ledge.y + ledge.h) := by
  have hpre : ¬ (overshootPlayer.lastX < ledge.lastX + ledge.w ∧
       ledge.lastX < overshootPlayer.lastX + overshootPlayer.w ∧
       overshootPlayer.lastY < ledge.lastY + ledge.h ∧
       ledge.lastY < overshootPlayer.lastY + overshootPlayer.h) := by
    norm_num [overshootPlayer, ledge, Platform.new, MovableRect.new]
  have hint : ∀ k : ℤ, |k| < 2 ^ 53 → Representable (k : ℚ) = true := representable_int
  have hleft : Representable (ledge.x - overshootPlayer.w) = true := by
    have hval : ledge.x - overshootPlayer.w = ((100 : ℤ) : ℚ) := by
      norm_num [overshootPlayer, ledge, Platform.new, MovableRect.new]
    rw [hval]
    exact hint 100 (by norm_num)
  have hright : Representable (ledge.x + ledge.w) = true := by
    have hval : ledge.x + ledge.w = ((500 : ℤ) : ℚ) := by
      norm_num [ledge, Platform.new, MovableRect.new]
    rw [hval]
    exact hint 500 (by norm_num)
  have htop : Representable (ledge.y - overshootPlayer.h) = true := by
    have hval : ledge.y - overshootPlayer.h = ((200 : ℤ) : ℚ) := by
      norm_num [overshootPlayer, ledge, Platform.new, MovableRect.new]
    rw [hval]
    exact hint 200 (by norm_num)
  have hbottom : Representable (ledge.y + ledge.h) = true := by
    have hval : ledge.y + ledge.h = ((300 : ℤ) : ℚ) := by
      norm_num [ledge, Platform.new, MovableRect.new]
    rw [hval]
    exact hint 300 (by norm_num)
  have hlx : Representable overshootPlayer.lastX = true := by
    have hval : overshootPlayer.lastX = ((90 : ℤ) : ℚ) := by norm_num [overshootPlayer]
    rw [hval]
    exact hint 90 (by norm_num)
  have hly : Representable overshootPlayer.lastY = true := by
    have hval : overshootPlayer.lastY = ((100 : ℤ) : ℚ) := by norm_num [overshootPlayer]
    rw [hval]
    exact hint 100 (by norm_num)
  have hplx : Representable ledge.lastX = true := by
    have hval : ledge.lastX = ((150 : ℤ) : ℚ) := by
      norm_num [ledge, Platform.new, MovableRect.new]
    rw [hval]
    exact hint 150 (by norm_num)
  have hply : Representable ledge.lastY = true := by
    have hval : ledge.lastY = ((250 : ℤ) : ℚ) := by
      norm_num [ledge, Platform.new, MovableRect.new]
    rw [hval]
    exact hint 250 (by norm_num)
  exact ⟨hpre, hleft, (handleCollision64_separates overshootPlayer ledge
    (by norm_num [overshootPlayer]) (by norm_num [overshootPlayer])
    (by norm_num [ledge, Platform.new, MovableRect.new])
    (by norm_num [ledge, Platform.new, MovableRect.new])
    hlx hly hplx hply hpre hleft hright htop hbottom).1⟩

/-- C19 (counterexample to the claim as stated): on binary64 numbers the 50 by 50
`approachingPlayer`, entirely to the left of `offGridWall` before moving, is
snapped to `x = fl(0.1 - 50)`, and then `x + w` exceeds the platform's `x = 0.1`
by `51 / 2^55`: the player is not flush, none of the four separating
inequalities holds, and the code's own test `x + w <= platform.x` fails. -/
theorem handleCollision64_snap_overlaps :
    0 < approachingPlayer.w ∧ 0 < approachingPlayer.h ∧
    0 < offGridWall.w ∧ 0 < offGridWall.h ∧
    ¬ (approachingPlayer.lastX < offGridWall.lastX + offGridWall.w ∧
       offGridWall.lastX < approachingPlayer.lastX + approachingPlayer.w ∧
       approachingPlayer.lastY < offGridWall.lastY + offGridWall.h ∧
       offGridWall.lastY < approachingPlayer.lastY + approachingPlayer.h) ∧
    approachingPlayer.handleCollision64 offGridWall =
      { approachingPlayer with x := -(7022800668930867 / 2 ^ 47), vx := 0 } ∧
    (approachingPlayer.handleCollision64 offGridWall).x +
      (approachingPlayer.handleCollision64 offGridWall).w = offGridWall.x + 51 / 2 ^ 55 ∧
    ¬ ((approachingPlayer.handleCollision64 offGridWall).x +
        (approachingPlayer.handleCollision64 offGridWall).w ≤ offGridWall.x ∨
      (approachingPlayer.handleCollision64 offGridWall).x ≥ offGridWall.x + offGridWall.w ∨
      (approachingPlayer.handleCollision64 offGridWall).y +
        (approachingPlayer.handleCollision64 offGridWall).h ≤ offGridWall.y ∨
      (approachingPlayer.handleCollision64 offGridWall).y ≥ offGridWall.y + offGridWall.h) ∧
    ¬ fl ((approachingPlayer.handleCollision64 offGridWall).x +
        (approachingPlayer.handleCollision64 offGridWall).w) ≤ offGridWall.x := by
  have hm10 : fl (-60 + 50 : ℚ) = -10 := by
    have h := fl_of_representable (representable_int (-10) (by norm_num))
    have hval : ((-10 : ℤ) : ℚ) = -60 + 50 := by norm_num
    rw [hval] at h
    rw [h]
    norm_num
  have hg1 : fl (approachingPlayer.lastX + approachingPlayer.w) ≤ offGridWall.lastX := by
    show fl (-60 + 50 : ℚ) ≤ tenth
    rw [hm10, tenth_eq]
    norm_num
  have hres : approachingPlayer.handleCollision64 offGridWall =
      { approachingPlayer with x := -(7022800668930867 / 2 ^ 47), vx := 0 } := by
    simp only [Player.handleCollision64, if_pos hg1]
    have hx : fl (offGridWall.x - approachingPlayer.w) = -(7022800668930867 / 2 ^ 47) :=
      fl_tenth_sub_fifty
    rw [hx]
  have hsum : (-(7022800668930867 / 2 ^ 47) : ℚ) + 50 = tenth + 51 / 2 ^ 55 := by
    rw [tenth_eq]
    norm_num
  have hrep : Representable (tenth + 51 / 2 ^ 55) = true := by
    have hd := representable_dyadic 3602879701896448 55 (by norm_num) (by norm_num)
    rw [Int.cast_ofNat] at hd
    have hval : (3602879701896448 : ℚ) / 2 ^ 55 = tenth + 51 / 2 ^ 55 := by
      rw [tenth_eq]
      norm_num
    rw [hval] at hd
    exact hd
  rw [hres]
  refine ⟨by norm_num [approachingPlayer], by norm_num [approachingPlayer],
    by norm_num [offGridWall, Platform.new, MovableRect.new],
    by norm_num [offGridWall, Platform.new, MovableRect.new], ?_, rfl, hsum, ?_, ?_⟩
  · intro hcon
    have h2 : offGridWall.lastX < approachingPlayer.lastX + approachingPlayer.w := hcon.2.1
    have h3 : tenth < -60 + 50 := h2
    rw [tenth_eq] at h3
    norm_num at h3
  · show ¬ ((-(7022800668930867 / 2 ^ 47) : ℚ) + 50 ≤ tenth ∨
      (-(7022800668930867 / 2 ^ 47) : ℚ) ≥ tenth + 100 ∨
      (20 : ℚ) + 50 ≤ 0 ∨ (20 : ℚ) ≥ 0 + 100)
    rw [tenth_eq]
    norm_num
  · show ¬ fl ((-(7022800668930867 / 2 ^ 47) : ℚ) + 50) ≤ tenth
    rw [hsum, fl_of_representable hrep]
    norm_num

/-! ## The tick on binary64 numbers -/

/-- The binary64 loop of `getCollisions`, started at index `i` with enough fuel,
stops at the end of the array having appended the colliding platforms from
index `i` on. -/
theorem getCollisionsLoop64_eq (rect : Rect) :
    ∀ (fuel : Nat) (s : Scan), s.i ≤ s.platforms.length →
      s.platforms.length - s.i ≤ fuel →
      Map.getCollisionsLoop64 rect fuel s =
        ⟨s.platforms,
         s.collisions ++ (s.platforms.drop s.i).filter (fun p => p.toRect.colliding64 rect),
         s.platforms.length⟩ := by
  intro fuel
  induction fuel with
  | zero =>
      intro s hle hfuel
      have hi : s.i = s.platforms.length := by omega
      obtain ⟨ps, cs, i⟩ := s
      simp only at hi
      subst hi
      simp [Map.getCollisionsLoop64]
  | succ fuel ih =>
      intro s hle hfuel
      obtain ⟨ps, cs, i⟩ := s
      simp only at hle hfuel
      by_cases hlt : i < ps.length
      · have hget : ps[i]? = some ps[i] := List.getElem?_eq_getElem hlt
        have hdrop : ps.drop i = ps[i] :: ps.drop (i + 1) := List.drop_eq_getElem_cons hlt
        by_cases hc : ps[i].toRect.colliding64 rect = true
        · have hstep : Map.getCollisionsStep64 rect ⟨ps, cs, i⟩ = ⟨ps, cs ++ [ps[i]], i + 1⟩ := by
            simp [Map.getCollisionsStep64, hget, hc]
          simp only [Map.getCollisionsLoop64, hlt, if_true, hstep]
          rw [ih ⟨ps, cs ++ [ps[i]], i + 1⟩ (by simpa using hlt) (by simp only; omega)]
          have hfil : (ps[i] :: ps.drop (i + 1)).filter (fun p => p.toRect.colliding64 rect) =
              ps[i] :: (ps.drop (i + 1)).filter (fun p => p.toRect.colliding64 rect) :=
            List.filter_cons_of_pos hc
          simp only [hdrop, hfil, List.append_assoc, List.singleton_append]
        · have hstep : Map.getCollisionsStep64 rect ⟨ps, cs, i⟩ = ⟨ps, cs, i + 1⟩ := by
            simp [Map.getCollisionsStep64, hget, hc]
          simp only [Map.getCollisionsLoop64, hlt, if_true, hstep]
          rw [ih ⟨ps, cs, i + 1⟩ (by simpa using hlt) (by simp only; omega)]
          have hfil : (ps[i] :: ps.drop (i + 1)).filter (fun p => p.toRect.colliding64 rect) =
              (ps.drop (i + 1)).filter (fun p => p.toRect.colliding64 rect) :=
            List.filter_cons_of_neg hc
          simp only [hdrop, hfil]
      · have hi : i = ps.length := by omega
        subst hi
        simp [Map.getCollisionsLoop64]

/-- The array returned by the binary64 `getCollisions` is the platform list
filtered by the binary64 `colliding`. -/
theorem getCollisions64_eq_filter (m : Map) (rect : Rect) :
    m.getCollisions64 rect = m.platforms.filter (fun p => p.toRect.colliding64 rect) := by
  unfold Map.getCollisions64
  rw [getCollisionsLoop64_eq rect m.platforms.length ⟨m.platforms, [], 0⟩
    (Nat.zero_le _) (by simp)]
  simp

/-- The integration phase of the binary64 `update`, field by field. -/
theorem integrate64_eq (pl : Player) :
    pl.integrate64 =
      { x := fl (pl.x + fl (pl.vx * Player.frictionMultiplier64)),
        y := fl (pl.y + fl (pl.vy + 1 / 2)), w := pl.w, h := pl.h,
        vx := fl (pl.vx * Player.frictionMultiplier64), vy := fl (pl.vy + 1 / 2),
        lastX := pl.x, lastY := pl.y, canJump := false } := by
  simp [Player.integrate64, Player.applyFriction64, Player.applyGravity64, Player.move64,
    MovableRect.move64, MovableRect.saveOldPosition, Rect.translate64, Player.gravity]

/-- With a single platform that collides, the binary64 tick resolves exactly that collision. -/
theorem update64_single_of_colliding (pl : Player) (p : Platform)
    (hc : p.toRect.colliding64 pl.integrate64.toRect = true) :
    pl.update64 ⟨[p]⟩ = pl.integrate64.handleCollision64 p := by
  simp [Player.update64, getCollisions64_eq_filter, List.filter, hc]

/-- The binary64 value of `0.5` is `1/2`. -/
theorem fl_half : fl (1 / 2) = 1 / 2 := by
  have hd := representable_dyadic 1 1 (by norm_num) (by norm_num)
  have hval : ((1 : ℤ) : ℚ) / 2 ^ 1 = 1 / 2 := by norm_num
  rw [hval] at hd
  exact fl_of_representable hd

/-- The tick of a player at rest on a static platform, its lower edge exactly on
the platform top, only refreshes the snapshot and sets `canJump`. -/
theorem update64_resting_eq (pl : Player) (p : Platform)
    (hsx : p.lastX = p.x) (hsy : p.lastY = p.y)
    (hvx : pl.vx = 0) (hvy : pl.vy = 0) (hy : pl.y = p.y - pl.h)
    (hx1 : fl (pl.x + pl.w) > p.x) (hx2 : pl.x < fl (p.x + p.w))
    (hthick : Player.gravity ≤ pl.h + p.h)
    (hrx : Representable pl.x = true) (hry : Representable pl.y = true)
    (hrp : Representable p.y = true) :
    pl.update64 ⟨[p]⟩ = { pl with lastX := pl.x, lastY := pl.y, canJump := true } := by
  have hfx : fl pl.x = pl.x := fl_of_representable hrx
  have hfy : fl pl.y = pl.y := fl_of_representable hry
  have hint : pl.integrate64 =
      { x := pl.x, y := fl (pl.y + 1 / 2), w := pl.w, h := pl.h, vx := 0, vy := 1 / 2,
        lastX := pl.x, lastY := pl.y, canJump := false } := by
    rw [integrate64_eq, hvx, hvy, zero_mul, fl_zero, zero_add, fl_half, add_zero, hfx]
  have hyup : pl.y ≤ fl (pl.y + 1 / 2) := le_fl_of_le hry (by linarith)
  simp only [Player.gravity] at hthick
  have hc : p.toRect.colliding64 pl.integrate64.toRect = true := by
    rw [hint]
    simp only [Rect.colliding64, Bool.not_eq_true', Bool.or_eq_false_iff,
      decide_eq_false_iff_not, not_lt, gt_iff_lt]
    refine ⟨⟨⟨le_of_lt hx2, ?_⟩, le_of_lt hx1⟩, ?_⟩
    · exact fl_mono (by linarith)
    · apply le_fl_of_le hrp
      linarith
  rw [update64_single_of_colliding pl p hc, hint]
  have g1 : ¬ fl (pl.x + pl.w) ≤ p.lastX := by
    rw [hsx]
    exact not_le.mpr hx1
  have g2 : ¬ pl.x ≥ fl (p.lastX + p.w) := by
    rw [hsx]
    exact not_le.mpr hx2
  have hsum : pl.y + pl.h = p.y := by linarith
  have g3 : fl (pl.y + pl.h) ≤ p.lastY := by
    rw [hsy, hsum, fl_of_representable hrp]
  have hsnap : fl (p.y - pl.h) = pl.y := by
    rw [← hy]
    exact hfy
  simp only [Player.handleCollision64, if_neg g1, if_neg g2, if_pos g3, hsnap]
  obtain ⟨⟨⟨x, y, w, h⟩, vx, vy, lx, ly⟩, cj⟩ := pl
  simp only at hvx hvy
  subst hvx hvy
  rfl

/-- C5 (as amended): on binary64 numbers, for a static platform `p` and a player
with `vx = 0`, `vy = 0`, `x + w > p.x` and `x < p.x + p.w` as the code evaluates
them, whose lower edge is exactly on the platform top (`y = p.y - h` with no
rounding, `x`, `y` and `p.y` being binary64 values) and with `h + p.h` at least
the gravity step `0.5`, `update` on the map whose only platform is `p` leaves
`x`, `y`, `vx`, `vy` unchanged and sets `canJump = true`, and a second `update`
reproduces exactly the state of the first. -/
theorem update64_resting_fixed (pl : Player) (p : Platform)
    (hsx : p.lastX = p.x) (hsy : p.lastY = p.y)
    (hvx : pl.vx = 0) (hvy : pl.vy = 0) (hy : pl.y = p.y - pl.h)
    (hx1 : fl (pl.x + pl.w) > p.x) (hx2 : pl.x < fl (p.x + p.w))
    (hthick : Player.gravity ≤ pl.h + p.h)
    (hrx : Representable pl.x = true) (hry : Representable pl.y = true)
    (hrp : Representable p.y = true) :
    (pl.update64 ⟨[p]⟩).x = pl.x ∧
    (pl.update64 ⟨[p]⟩).y = pl.y ∧
    (pl.update64 ⟨[p]⟩).vx = pl.vx ∧
    (pl.update64 ⟨[p]⟩).vy = pl.vy ∧
    (pl.update64 ⟨[p]⟩).canJump = true ∧
    (pl.update64 ⟨[p]⟩).update64 ⟨[p]⟩ = pl.update64 ⟨[p]⟩ := by
  have hfirst := update64_resting_eq pl p hsx hsy hvx hvy hy hx1 hx2 hthick hrx hry hrp
  rw [hfirst]
  refine ⟨rfl, rfl, rfl, rfl, rfl, ?_⟩
  exact update64_resting_eq { pl with lastX := pl.x, lastY := pl.y, canJump := true } p
    hsx hsy hvx hvy hy hx1 hx2 hthick hrx hry hrp

/-- The rounding of a small integer is the integer. -/
theorem fl_int (k : ℤ) (hk : |k| < 2 ^ 53) : fl (k : ℚ) = k :=
  fl_of_representable (representable_int k hk)

/-- C5 (witness): `standingPlayer` on `ledge`, all coordinates integers, is a
fixed point of the binary64 tick. -/
theorem update64_resting_fixed_witness :
    ledge.lastX = ledge.x ∧ ledge.lastY = ledge.y ∧
    standingPlayer.vx = 0 ∧ standingPlayer.vy = 0 ∧
    standingPlayer.y = ledge.y - standingPlayer.h ∧
    fl (standingPlayer.x + standingPlayer.w) > ledge.x ∧
    standingPlayer.x < fl (ledge.x + ledge.w) ∧
    Player.gravity ≤ standingPlayer.h + ledge.h ∧
    Representable standingPlayer.y = true ∧ Representable ledge.y = true ∧
    (standingPlayer.update64 ⟨[ledge]⟩).y = standingPlayer.y ∧
    (standingPlayer.update64 ⟨[ledge]⟩).canJump = true ∧
    (standingPlayer.update64 ⟨[ledge]⟩).update64 ⟨[ledge]⟩ =
      standingPlayer.update64 ⟨[ledge]⟩ := by
  have hy : standingPlayer.y = ledge.y - standingPlayer.h := by
    norm_num [standingPlayer, Player.new, ledge, Platform.new, MovableRect.new]
  have hx1 : fl (standingPlayer.x + standingPlayer.w) > ledge.x := by
    have hval : standingPlayer.x + standingPlayer.w = ((250 : ℤ) : ℚ) := by
      norm_num [standingPlayer, Player.new, MovableRect.new]
    rw [hval, fl_int 250 (by norm_num)]
    norm_num [ledge, Platform.new, MovableRect.new]
  have hx2 : standingPlayer.x < fl (ledge.x + ledge.w) := by
    have hval : ledge.x + ledge.w = ((500 : ℤ) : ℚ) := by
      norm_num [ledge, Platform.new, MovableRect.new]
    rw [hval, fl_int 500 (by norm_num)]
    norm_num [standingPlayer, Player.new, MovableRect.new]
  have hthick : Player.gravity ≤ standingPlayer.h + ledge.h := by
    norm_num [Player.gravity, standingPlayer, Player.new, ledge, Platform.new, MovableRect.new]
  have hrx : Representable standingPlayer.x = true := by
    have hval : standingPlayer.x = ((200 : ℤ) : ℚ) := by
      norm_num [standingPlayer, Player.new, MovableRect.new]
    rw [hval]
    exact representable_int 200 (by norm_num)
  have hry : Representable standingPlayer.y = true := by
    have hval : standingPlayer.y = ((200 : ℤ) : ℚ) := by
      norm_num [standingPlayer, Player.new, MovableRect.new]
    rw [hval]
    exact representable_int 200 (by norm_num)
  have hrp : Representable ledge.y = true := by
    have hval : ledge.y = ((250 : ℤ) : ℚ) := by
      norm_num [ledge, Platform.new, MovableRect.new]
    rw [hval]
    exact representable_int 250 (by norm_num)
  obtain ⟨-, e2, -, -, e5, e6⟩ :=
    update64_resting_fixed standingPlayer ledge rfl rfl rfl rfl hy hx1 hx2 hthick hrx hry hrp
  exact ⟨rfl, rfl, rfl, rfl, hy, hx1, hx2, hthick, hry, hrp, e2, e5, e6⟩

/-- C5 (counterexample to the claim as stated): on binary64 numbers the 50 by 50
`landedPlayer` rests on the static `offGridFloor` (top edge at `0.1`) with zero
velocity, `y` the binary64 value of `p.y - h`, and horizontal overlap; yet one
`update` leaves it at `y + 0.5` with `vy = 0.5` and `canJump = false`.  The
snapped `y` is `51 / 2^55` too high, so `lastY + h <= platform.lastY` fails and
no branch of `handleCollision` fires. -/
theorem update64_landed_falls :
    offGridFloor.lastX = offGridFloor.x ∧ offGridFloor.lastY = offGridFloor.y ∧
    landedPlayer.w = 50 ∧ landedPlayer.h = 50 ∧
    landedPlayer.vx = 0 ∧ landedPlayer.vy = 0 ∧
    landedPlayer.y = fl (offGridFloor.y - landedPlayer.h) ∧
    fl (landedPlayer.x + landedPlayer.w) > offGridFloor.x ∧
    landedPlayer.x < fl (offGridFloor.x + offGridFloor.w) ∧
    Representable landedPlayer.y = true ∧ Representable offGridFloor.y = true ∧
    offGridFloor.toRect.colliding64 landedPlayer.integrate64.toRect = true ∧
    (landedPlayer.update64 ⟨[offGridFloor]⟩).y = landedPlayer.y + 1 / 2 ∧
    (landedPlayer.update64 ⟨[offGridFloor]⟩).y ≠ landedPlayer.y ∧
    (landedPlayer.update64 ⟨[offGridFloor]⟩).vy = 1 / 2 ∧
    (landedPlayer.update64 ⟨[offGridFloor]⟩).canJump = false := by
  have hy0 : landedPlayer.y = -(7022800668930867 / 2 ^ 47) := by
    show fl (tenth - 50) = _
    exact fl_tenth_sub_fifty
  have h50 : fl ((0 : ℚ) + 50) = 50 := by
    have h := fl_int 50 (by norm_num)
    have hval : ((50 : ℤ) : ℚ) = 0 + 50 := by norm_num
    rw [hval] at h
    rw [h]
    norm_num
  have h100 : fl ((0 : ℚ) + 100) = 100 := by
    have h := fl_int 100 (by norm_num)
    have hval : ((100 : ℤ) : ℚ) = 0 + 100 := by norm_num
    rw [hval] at h
    rw [h]
    norm_num
  have hrepy : Representable landedPlayer.y = true := by
    rw [hy0]
    apply representable_neg
    have hd := representable_dyadic 7022800668930867 47 (by norm_num) (by norm_num)
    rw [Int.cast_ofNat] at hd
    exact hd
  have hrept : Representable offGridFloor.y = true := by
    show Representable tenth = true
    rw [tenth_eq]
    have hd := representable_dyadic 3602879701896397 55 (by norm_num) (by norm_num)
    rw [Int.cast_ofNat] at hd
    exact hd
  have hy1 : fl (landedPlayer.y + 1 / 2) = -(6952431924753203 / 2 ^ 47) := by
    have hrep : Representable (-((6952431924753203 : ℚ) / 2 ^ 47)) = true := by
      apply representable_neg
      have hd := representable_dyadic 6952431924753203 47 (by norm_num) (by norm_num)
      rw [Int.cast_ofNat] at hd
      exact hd
    have hval : landedPlayer.y + 1 / 2 = -((6952431924753203 : ℚ) / 2 ^ 47) := by
      rw [hy0]
      norm_num
    rw [hval]
    exact fl_of_representable hrep
  have hint : landedPlayer.integrate64 =
      { x := 0, y := -(6952431924753203 / 2 ^ 47), w := 50, h := 50, vx := 0, vy := 1 / 2,
        lastX := 0, lastY := landedPlayer.y, canJump := false } := by
    rw [integrate64_eq]
    have e1 : fl (landedPlayer.vx * Player.frictionMultiplier64) = 0 := by
      show fl (0 * Player.frictionMultiplier64) = 0
      rw [zero_mul, fl_zero]
    have e2 : fl (landedPlayer.vy + 1 / 2) = 1 / 2 := by
      show fl (0 + 1 / 2) = 1 / 2
      rw [zero_add, fl_half]
    have e3 : fl (landedPlayer.x + 0) = 0 := by
      show fl ((0 : ℚ) + 0) = 0
      rw [add_zero, fl_zero]
    rw [e1, e2, e3, hy1]
    rfl
  have hfeet : fl (-(6952431924753203 / 2 ^ 47) + 50 : ℚ) = 84442493013197 / 2 ^ 47 := by
    have hrep : Representable ((84442493013197 : ℚ) / 2 ^ 47) = true := by
      have hd := representable_dyadic 84442493013197 47 (by norm_num) (by norm_num)
      rw [Int.cast_ofNat] at hd
      exact hd
    have hval : (-(6952431924753203 / 2 ^ 47) + 50 : ℚ) = 84442493013197 / 2 ^ 47 := by
      norm_num
    rw [hval]
    exact fl_of_representable hrep
  have hbelow : (0 : ℚ) ≤ fl (tenth + 10) := by
    apply fl_nonneg
    rw [tenth_eq]
    norm_num
  have hc : offGridFloor.toRect.colliding64 landedPlayer.integrate64.toRect = true := by
    rw [hint]
    show Rect.colliding64 ⟨0, tenth, 100, 10⟩ ⟨0, -(6952431924753203 / 2 ^ 47), 50, 50⟩ = true
    simp only [Rect.colliding64, Bool.not_eq_true', Bool.or_eq_false_iff,
      decide_eq_false_iff_not, not_lt, gt_iff_lt, h50, h100, hfeet]
    refine ⟨⟨⟨by norm_num, ?_⟩, by norm_num⟩, ?_⟩
    · have : (-(6952431924753203 / 2 ^ 47) : ℚ) ≤ 0 := by norm_num
      linarith
    · rw [tenth_eq]
      norm_num
  have g1 : ¬ fl (landedPlayer.integrate64.lastX + landedPlayer.integrate64.w) ≤
      offGridFloor.lastX := by
    rw [hint]
    show ¬ fl ((0 : ℚ) + 50) ≤ 0
    rw [h50]
    norm_num
  have g2 : ¬ landedPlayer.integrate64.lastX ≥ fl (offGridFloor.lastX + offGridFloor.w) := by
    rw [hint]
    show ¬ (0 : ℚ) ≥ fl ((0 : ℚ) + 100)
    rw [h100]
    norm_num
  have g3 : ¬ fl (landedPlayer.integrate64.lastY + landedPlayer.integrate64.h) ≤
      offGridFloor.lastY := by
    rw [hint]
    show ¬ fl (landedPlayer.y + 50) ≤ tenth
    have hrep : Representable ((3602879701896448 : ℚ) / 2 ^ 55) = true := by
      have hd := representable_dyadic 3602879701896448 55 (by norm_num) (by norm_num)
      rw [Int.cast_ofNat] at hd
      exact hd
    have hval : landedPlayer.y + 50 = (3602879701896448 : ℚ) / 2 ^ 55 := by
      rw [hy0]
      norm_num
    rw [hval, fl_of_representable hrep, tenth_eq]
    norm_num
  have g4 : ¬ landedPlayer.integrate64.lastY ≥ fl (offGridFloor.lastY + offGridFloor.h) := by
    rw [hint]
    show ¬ landedPlayer.y ≥ fl (tenth + 10)
    rw [hy0]
    have : (-(7022800668930867 / 2 ^ 47) : ℚ) < 0 := by norm_num
    intro hge
    linarith
  have hres : landedPlayer.update64 ⟨[offGridFloor]⟩ = landedPlayer.integrate64 := by
    rw [update64_single_of_colliding landedPlayer offGridFloor hc]
    simp only [Player.handleCollision64, if_neg g1, if_neg g2, if_neg g3, if_neg g4]
  have hyres : (landedPlayer.update64 ⟨[offGridFloor]⟩).y = landedPlayer.y + 1 / 2 := by
    rw [hres, hint, hy0]
    show (-(6952431924753203 / 2 ^ 47) : ℚ) = -(7022800668930867 / 2 ^ 47) + 1 / 2
    norm_num
  refine ⟨rfl, rfl, rfl, rfl, rfl, rfl, rfl, ?_, ?_, hrepy, hrept, hc, hyres, ?_, ?_, ?_⟩
  · show fl ((0 : ℚ) + 50) > 0
    rw [h50]
    norm_num
  · show (0 : ℚ) < fl ((0 : ℚ) + 100)
    rw [h100]
    norm_num
  · rw [hyres]
    intro hcon
    linarith
  · rw [hres, hint]
  · rw [hres, hint]

end Platformer
